import Mathlib

/-!
Verification development for the termshot core.

The definitions below are a shallow embedding of the Go sources:

* the virtual terminal emulator of internal/ansi (VirtualTerminal.Parse,
  handleCSI and the erase helpers),
* the compositor accumulation step of internal/img (Scaffold.AddContent,
  enhanceRawContent, highlightCommandLine, the column wrap loop and the
  raw-write branch of the root command),
* the shell lexer of internal/highlight (Lexer.Tokenize), and
* the theme registry of internal/theme (GetTheme, LoadThemeFromFile,
  ParseColor).

Go machine integers are modelled as Int (with explicit clamping exactly as
in the source); Go byte strings are modelled as List Nat with values
below 256; Go runes are modelled as Char.  A Go runtime panic (index out
of range) is modelled by an Option/PRes failure value.
-/

deriving instance DecidableEq for Except

namespace Termshot

/-- A styled character: bunt.ColoredRune with fields Symbol (rune) and
Settings (uint64). -/
structure ColoredRune where
  symbol : Char
  settings : Nat
deriving DecidableEq

/-- The escape character, 0x1B. -/
def escChar : Char := Char.ofNat 27

/-- The backspace character, 0x08. -/
def bsChar : Char := Char.ofNat 8

/-- A blank cell as produced by the padding loop of Parse and the erase
helpers: bunt.ColoredRune with Symbol space and zero Settings. -/
def blankRune : ColoredRune := { symbol := ' ', settings := 0 }

/-- State of the virtual terminal (struct VirtualTerminal). -/
structure VirtualTerminal where
  lines : List (List ColoredRune)
  cursorX : Int
  cursorY : Int
  settings : Nat
  maxColumns : Int
deriving DecidableEq

/-- NewVirtualTerminal: one empty row, cursor at the origin, and a default
of 80 columns when the requested limit is not positive. -/
def NewVirtualTerminal (maxColumns : Int) : VirtualTerminal :=
  { lines := [[]], cursorX := 0, cursorY := 0, settings := 0,
    maxColumns := if maxColumns ≤ 0 then 80 else maxColumns }

/-- ensureLineExists: append empty rows until the row index exists.  The Go
loop appends one empty row while len(lines) is at most the index, so the
final length is the maximum of the old length and index+1. -/
def ensureLineExists (lines : List (List ColoredRune)) (line : Int) :
    List (List ColoredRune) :=
  lines ++ List.replicate (line + 1 - lines.length).toNat []

/-- clearToEndOfLine: truncate the current row at the cursor column. -/
def clearToEndOfLine (vt : VirtualTerminal) : VirtualTerminal :=
  if vt.cursorY < (vt.lines.length : Int) then
    let row := vt.lines.getD vt.cursorY.toNat []
    if vt.cursorX < (row.length : Int) then
      { vt with lines := vt.lines.set vt.cursorY.toNat (row.take vt.cursorX.toNat) }
    else vt
  else vt

/-- clearToBeginningOfLine: blank the current row up to and including the
cursor column. -/
def clearToBeginningOfLine (vt : VirtualTerminal) : VirtualTerminal :=
  if vt.cursorY < (vt.lines.length : Int) then
    let row := vt.lines.getD vt.cursorY.toNat []
    let row2 := row.mapIdx fun i c => if (i : Int) ≤ vt.cursorX then blankRune else c
    { vt with lines := vt.lines.set vt.cursorY.toNat row2 }
  else vt

/-- clearLine: empty the current row entirely. -/
def clearLine (vt : VirtualTerminal) : VirtualTerminal :=
  if vt.cursorY < (vt.lines.length : Int) then
    { vt with lines := vt.lines.set vt.cursorY.toNat [] }
  else vt

/-- clearToEndOfScreen: truncate the current row at the cursor, then drop
all rows after the current one. -/
def clearToEndOfScreen (vt : VirtualTerminal) : VirtualTerminal :=
  let vt1 := clearToEndOfLine vt
  if vt1.cursorY + 1 < (vt1.lines.length : Int) then
    { vt1 with lines := vt1.lines.take (vt1.cursorY + 1).toNat }
  else vt1

/-- clearToBeginningOfScreen: empty every row before the current one, then
blank the current row up to the cursor. -/
def clearToBeginningOfScreen (vt : VirtualTerminal) : VirtualTerminal :=
  let vt1 := { vt with
    lines := vt.lines.mapIdx fun i r => if (i : Int) < vt.cursorY then [] else r }
  clearToBeginningOfLine vt1

/-- clearScreen: reset the grid to one empty row and the cursor to the
origin. -/
def clearScreen (vt : VirtualTerminal) : VirtualTerminal :=
  { vt with lines := [[]], cursorX := 0, cursorY := 0 }

/-- Largest value of a 64-bit signed integer: strconv.Atoi returns this
value (with a discarded range error) when the digit string overflows. -/
def maxInt64 : Nat := 9223372036854775807

/-- Result of strconv.Atoi on a non-empty string of decimal digits whose
numeric value is v, with the error discarded as in handleCSI. -/
def goAtoi (v : Nat) : Int :=
  if v ≤ maxInt64 then (v : Int) else (maxInt64 : Int)

/-- Decimal digit test used by the CSI parameter scanner. -/
def isDigitSym (c : Char) : Bool := 48 ≤ c.toNat && c.toNat ≤ 57

/-- Parameter scan of handleCSI, starting just after the ESC [ pair: digits
accumulate into the current parameter, a semicolon flushes the buffer (an
empty buffer flushes as 0), and the first other character is the command
letter.  Returns none when the input ends before a command letter is
found, matching the bounds checks of the Go code. -/
def csiScan : List ColoredRune → Option Nat → List Int →
    Option (List Int × Char × List ColoredRune)
  | [], _, _ => none
  | c :: rest, buf, params =>
    if isDigitSym c.symbol then
      csiScan rest (some (10 * buf.getD 0 + (c.symbol.toNat - 48))) params
    else if c.symbol = ';' then
      csiScan rest none
        (params ++ [match buf with | some v => goAtoi v | none => 0])
    else
      some (params ++ (match buf with | some v => [goAtoi v] | none => []),
        c.symbol, rest)

/-- Default parameter rule of the cursor-movement commands A, B, C, D: the
first parameter when it is positive, otherwise 1. -/
def paramN (params : List Int) : Int :=
  match params with
  | p :: _ => if 0 < p then p else 1
  | [] => 1

/-- Command dispatch of handleCSI.  Returns none exactly when the command
letter is not handled (the Go code returns consumed=0, handled=false). -/
def csiApply (vt : VirtualTerminal) (params : List Int) (command : Char) :
    Option VirtualTerminal :=
  if command = 'A' then
    let y := vt.cursorY - paramN params
    some { vt with cursorY := if y < 0 then 0 else y }
  else if command = 'B' then
    let y := vt.cursorY + paramN params
    some { vt with cursorY := y, lines := ensureLineExists vt.lines y }
  else if command = 'C' then
    some { vt with cursorX := vt.cursorX + paramN params }
  else if command = 'D' then
    let x := vt.cursorX - paramN params
    some { vt with cursorX := if x < 0 then 0 else x }
  else if command = 'G' then
    let x := (match params with | p :: _ => p | [] => 1) - 1
    some { vt with cursorX := if x < 0 then 0 else x }
  else if command = 'H' ∨ command = 'f' then
    let row := match params with | p :: _ => p | [] => 1
    let col := match params with | _ :: q :: _ => q | _ => 1
    let y := if row - 1 < 0 then 0 else row - 1
    let x := if col - 1 < 0 then 0 else col - 1
    some { vt with cursorY := y, cursorX := x,
                   lines := ensureLineExists vt.lines y }
  else if command = 'J' then
    let mode := match params with | p :: _ => p | [] => 0
    if mode = 0 then some (clearToEndOfScreen vt)
    else if mode = 1 then some (clearToBeginningOfScreen vt)
    else if mode = 2 ∨ mode = 3 then some (clearScreen vt)
    else some vt
  else if command = 'K' then
    let mode := match params with | p :: _ => p | [] => 0
    if mode = 0 then some (clearToEndOfLine vt)
    else if mode = 1 then some (clearToBeginningOfLine vt)
    else if mode = 2 then some (clearLine vt)
    else some vt
  else if command = 's' ∨ command = 'u' then some vt
  else none

/-- handleCSI on the input suffix starting at the ESC character (which is
followed by the bracket).  Returns the updated terminal and the input
remaining after the command letter, or none when the sequence is
unterminated or the command letter is not handled. -/
def handleCSI (vt : VirtualTerminal) (l : List ColoredRune) :
    Option (VirtualTerminal × List ColoredRune) :=
  match l with
  | _ :: _ :: t =>
    match csiScan t none [] with
    | some (params, command, rest) =>
      match csiApply vt params command with
      | some vt2 => some (vt2, rest)
      | none => none
    | none => none
  | _ => none

/-- Regular-character placement of Parse: ensure the row exists, pad the
row with blanks up to the cursor column, force a wrap when the column has
reached maxColumns, then assign the cell.  The assignment
vt.lines[vt.cursorY][vt.cursorX] = cr panics in Go when the target column
does not exist (which happens after a wrap onto a fresh empty row); that
panic is modelled as none. -/
def writeChar (vt : VirtualTerminal) (cr : ColoredRune) :
    Option VirtualTerminal :=
  let ls := ensureLineExists vt.lines vt.cursorY
  let row := ls.getD vt.cursorY.toNat []
  let row2 := row ++ List.replicate (vt.cursorX + 1 - row.length).toNat blankRune
  let ls2 := ls.set vt.cursorY.toNat row2
  let y2 : Int := if vt.maxColumns ≤ vt.cursorX then vt.cursorY + 1 else vt.cursorY
  let x2 : Int := if vt.maxColumns ≤ vt.cursorX then 0 else vt.cursorX
  let ls3 := if vt.maxColumns ≤ vt.cursorX then ensureLineExists ls2 y2 else ls2
  let target := ls3.getD y2.toNat []
  if x2.toNat < target.length then
    some { vt with lines := ls3.set y2.toNat (target.set x2.toNat cr),
                   cursorY := y2, cursorX := x2 + 1 }
  else none

/-- One iteration of the Parse loop on a non-empty input: escape lookahead,
carriage return, newline, backspace, or regular character.  Returns the
state and remaining input, or none when the character write panics. -/
def parseStep (vt : VirtualTerminal) :
    List ColoredRune → Option (VirtualTerminal × List ColoredRune)
  | [] => none
  | cr :: rest =>
    if cr.symbol = escChar then
      match rest with
      | next :: _ =>
        if next.symbol = '[' then
          match handleCSI vt (cr :: rest) with
          | some (vt2, rest2) => some (vt2, rest2)
          | none => some (vt, rest)
        else some (vt, rest)
      | [] => some (vt, rest)
    else if cr.symbol = '\r' then
      some ({ vt with cursorX := 0 }, rest)
    else if cr.symbol = '\n' then
      let y := vt.cursorY + 1
      some ({ vt with cursorY := y, cursorX := 0, lines := ensureLineExists vt.lines y }, rest)
    else if cr.symbol = bsChar then
      some ({ vt with cursorX := if 0 < vt.cursorX then vt.cursorX - 1 else vt.cursorX }, rest)
    else
      match writeChar vt cr with
      | some vt2 => some (vt2, rest)
      | none => none

/-- Outcome of running the Parse loop: a final terminal state, a modelled
Go runtime panic, or fuel exhaustion (which theorem c4 shows cannot occur
when the fuel is at least the input length). -/
inductive PRes where
  | ok (vt : VirtualTerminal)
  | crash
  | fuelOut
deriving DecidableEq

/-- The Parse loop of VirtualTerminal.Parse, with explicit fuel.  Every
iteration consumes at least one input character, so fuel equal to the
input length suffices. -/
def parseLoopF : Nat → VirtualTerminal → List ColoredRune → PRes
  | _, vt, [] => .ok vt
  | 0, _, _ :: _ => .fuelOut
  | fuel + 1, vt, cr :: rest =>
    match parseStep vt (cr :: rest) with
    | some (vt2, rest2) => parseLoopF fuel vt2 rest2
    | none => .crash

/-- Settings copied onto the synthetic line break: those of the last
character of the preceding row, or zero when the row is empty. -/
def lastRuneSettings (row : List ColoredRune) : Nat :=
  match row.getLast? with
  | some cr => cr.settings
  | none => 0

/-- toBuntString: join the rows, inserting one break character between
consecutive rows (never after the last row). -/
def toBuntString : List (List ColoredRune) → List ColoredRune
  | [] => []
  | [row] => row
  | row :: rest =>
    row ++ ({ symbol := '\n', settings := lastRuneSettings row } : ColoredRune)
      :: toBuntString rest

/-- VirtualTerminal.Parse on an already-decoded styled sequence: run the
loop from a fresh terminal. -/
def vtParseFull (maxColumns : Int) (input : List ColoredRune) : PRes :=
  parseLoopF input.length (NewVirtualTerminal maxColumns) input

/-- Flattened output of Parse, or none when the loop panics. -/
def vtParseOut (maxColumns : Int) (input : List ColoredRune) :
    Option (List ColoredRune) :=
  match vtParseFull maxColumns input with
  | .ok vt => some (toBuntString vt.lines)
  | _ => none

/-- Rows of a styled sequence, split at newline characters (specification
helper used to state the identity and wrapping claims). -/
def splitLines : List ColoredRune → List (List ColoredRune)
  | [] => [[]]
  | c :: rest =>
    match splitLines rest with
    | [] => [[]]
    | h :: t => if c.symbol = '\n' then [] :: h :: t else (c :: h) :: t

/-- Prepend a partial row to the first row of a row list (specification
helper for the Parse loop invariant). -/
def glueLines (cur : List ColoredRune) :
    List (List ColoredRune) → List (List ColoredRune)
  | [] => [cur]
  | h :: t => (cur ++ h) :: t

/-- A styled sequence with no escape, carriage-return or backspace
characters. -/
def noCtrl (l : List ColoredRune) : Prop :=
  ∀ cr ∈ l, cr.symbol ≠ escChar ∧ cr.symbol ≠ '\r' ∧ cr.symbol ≠ bsChar

instance (l : List ColoredRune) : Decidable (noCtrl l) := by
  unfold noCtrl; infer_instance

/-- Every row of the sequence fits in the given column limit. -/
def linesFit (m : Int) (l : List ColoredRune) : Prop :=
  ∀ row ∈ splitLines l, (row.length : Int) ≤ m

instance (m : Int) (l : List ColoredRune) : Decidable (linesFit m l) := by
  unfold linesFit; infer_instance

/-- Plain styled sequence of a string: every character with zero settings,
as produced by the external decoder on input with no escape codes. -/
def plain (s : String) : List ColoredRune :=
  s.toList.map fun c => { symbol := c, settings := 0 }

/-- Color scheme of a terminal screenshot (struct Theme of internal/theme),
flat string-valued fields. -/
structure Theme where
  name : String
  background : String
  foreground : String
  windowRed : String
  windowYellow : String
  windowGreen : String
  windowBorder : String
  shadow : String
  black : String
  red : String
  green : String
  yellow : String
  blue : String
  magenta : String
  cyan : String
  white : String
  brightBlack : String
  brightRed : String
  brightGreen : String
  brightYellow : String
  brightBlue : String
  brightMagenta : String
  brightCyan : String
  brightWhite : String
deriving DecidableEq

/-- Preset theme registered under the default key. -/
def defaultTheme : Theme :=
  { name := "Default", background := "#151515", foreground := "#D3D3D3",
    windowRed := "#ED655A", windowYellow := "#E1C04C", windowGreen := "#71BD47",
    windowBorder := "#404040", shadow := "#10101066",
    black := "#000000", red := "#E06C75", green := "#98C379",
    yellow := "#E5C07B", blue := "#61AFEF", magenta := "#C678DD",
    cyan := "#56B6C2", white := "#ABB2BF",
    brightBlack := "#5C6370", brightRed := "#E06C75", brightGreen := "#98C379",
    brightYellow := "#E5C07B", brightBlue := "#61AFEF",
    brightMagenta := "#C678DD", brightCyan := "#56B6C2",
    brightWhite := "#FFFFFF" }

/-- Preset theme catppuccin-mocha. -/
def catppuccinMochaTheme : Theme :=
  { name := "Catppuccin Mocha", background := "#1e1e2e", foreground := "#cdd6f4",
    windowRed := "#f38ba8", windowYellow := "#f9e2af", windowGreen := "#a6e3a1",
    windowBorder := "#45475a", shadow := "#11111b66",
    black := "#45475a", red := "#f38ba8", green := "#a6e3a1",
    yellow := "#f9e2af", blue := "#89b4fa", magenta := "#f5c2e7",
    cyan := "#94e2d5", white := "#bac2de",
    brightBlack := "#585b70", brightRed := "#f38ba8", brightGreen := "#a6e3a1",
    brightYellow := "#f9e2af", brightBlue := "#89b4fa",
    brightMagenta := "#f5c2e7", brightCyan := "#94e2d5",
    brightWhite := "#a6adc8" }

/-- Preset theme catppuccin-latte. -/
def catppuccinLatteTheme : Theme :=
  { name := "Catppuccin Latte", background := "#eff1f5", foreground := "#4c4f69",
    windowRed := "#d20f39", windowYellow := "#df8e1d", windowGreen := "#40a02b",
    windowBorder := "#acb0be", shadow := "#e6e9ef66",
    black := "#5c5f77", red := "#d20f39", green := "#40a02b",
    yellow := "#df8e1d", blue := "#1e66f5", magenta := "#ea76cb",
    cyan := "#179299", white := "#acb0be",
    brightBlack := "#6c6f85", brightRed := "#d20f39", brightGreen := "#40a02b",
    brightYellow := "#df8e1d", brightBlue := "#1e66f5",
    brightMagenta := "#ea76cb", brightCyan := "#179299",
    brightWhite := "#bcc0cc" }

/-- Preset theme nord. -/
def nordTheme : Theme :=
  { name := "Nord", background := "#2e3440", foreground := "#d8dee9",
    windowRed := "#bf616a", windowYellow := "#ebcb8b", windowGreen := "#a3be8c",
    windowBorder := "#4c566a", shadow := "#2e344066",
    black := "#3b4252", red := "#bf616a", green := "#a3be8c",
    yellow := "#ebcb8b", blue := "#81a1c1", magenta := "#b48ead",
    cyan := "#88c0d0", white := "#e5e9f0",
    brightBlack := "#4c566a", brightRed := "#bf616a", brightGreen := "#a3be8c",
    brightYellow := "#ebcb8b", brightBlue := "#81a1c1",
    brightMagenta := "#b48ead", brightCyan := "#8fbcbb",
    brightWhite := "#eceff4" }

/-- Preset theme dracula. -/
def draculaTheme : Theme :=
  { name := "Dracula", background := "#282a36", foreground := "#f8f8f2",
    windowRed := "#ff5555", windowYellow := "#f1fa8c", windowGreen := "#50fa7b",
    windowBorder := "#44475a", shadow := "#21222c66",
    black := "#21222c", red := "#ff5555", green := "#50fa7b",
    yellow := "#f1fa8c", blue := "#bd93f9", magenta := "#ff79c6",
    cyan := "#8be9fd", white := "#f8f8f2",
    brightBlack := "#6272a4", brightRed := "#ff6e6e", brightGreen := "#69ff94",
    brightYellow := "#ffffa5", brightBlue := "#d6acff",
    brightMagenta := "#ff92df", brightCyan := "#a4ffff",
    brightWhite := "#ffffff" }

/-- Preset theme tokyo-night. -/
def tokyoNightTheme : Theme :=
  { name := "Tokyo Night", background := "#1a1b26", foreground := "#c0caf5",
    windowRed := "#f7768e", windowYellow := "#e0af68", windowGreen := "#9ece6a",
    windowBorder := "#414868", shadow := "#16161e66",
    black := "#15161e", red := "#f7768e", green := "#9ece6a",
    yellow := "#e0af68", blue := "#7aa2f7", magenta := "#bb9af7",
    cyan := "#7dcfff", white := "#a9b1d6",
    brightBlack := "#414868", brightRed := "#f7768e", brightGreen := "#9ece6a",
    brightYellow := "#e0af68", brightBlue := "#7aa2f7",
    brightMagenta := "#bb9af7", brightCyan := "#7dcfff",
    brightWhite := "#c0caf5" }

/-- Preset theme gruvbox-dark. -/
def gruvboxDarkTheme : Theme :=
  { name := "Gruvbox Dark", background := "#282828", foreground := "#ebdbb2",
    windowRed := "#cc241d", windowYellow := "#d79921", windowGreen := "#98971a",
    windowBorder := "#504945", shadow := "#1d202166",
    black := "#282828", red := "#cc241d", green := "#98971a",
    yellow := "#d79921", blue := "#458588", magenta := "#b16286",
    cyan := "#689d6a", white := "#a89984",
    brightBlack := "#928374", brightRed := "#fb4934", brightGreen := "#b8bb26",
    brightYellow := "#fabd2f", brightBlue := "#83a598",
    brightMagenta := "#d3869b", brightCyan := "#8ec07c",
    brightWhite := "#ebdbb2" }

/-- Preset theme solarized-dark. -/
def solarizedDarkTheme : Theme :=
  { name := "Solarized Dark", background := "#002b36", foreground := "#839496",
    windowRed := "#dc322f", windowYellow := "#b58900", windowGreen := "#859900",
    windowBorder := "#073642", shadow := "#002b3666",
    black := "#073642", red := "#dc322f", green := "#859900",
    yellow := "#b58900", blue := "#268bd2", magenta := "#d33682",
    cyan := "#2aa198", white := "#eee8d5",
    brightBlack := "#002b36", brightRed := "#cb4b16", brightGreen := "#586e75",
    brightYellow := "#657b83", brightBlue := "#839496",
    brightMagenta := "#6c71c4", brightCyan := "#93a1a1",
    brightWhite := "#fdf6e3" }

/-- The preset map (var themes of internal/theme) as an association list. -/
def themesMap : List (String × Theme) :=
  [("default", defaultTheme),
   ("catppuccin-mocha", catppuccinMochaTheme),
   ("catppuccin-latte", catppuccinLatteTheme),
   ("nord", nordTheme),
   ("dracula", draculaTheme),
   ("tokyo-night", tokyoNightTheme),
   ("gruvbox-dark", gruvboxDarkTheme),
   ("solarized-dark", solarizedDarkTheme)]

/-- GetTheme: look the name up in the preset map and fall back to the
default preset when the name is unknown. -/
def GetTheme (themeName : String) : Theme :=
  match themesMap.find? (fun p => p.1 == themeName) with
  | some p => p.2
  | none => defaultTheme

/-- Value of one hexadecimal digit, accepting both cases as Sscanf %x
does. -/
def hexDigitVal (c : Char) : Option Nat :=
  if 48 ≤ c.toNat ∧ c.toNat ≤ 57 then some (c.toNat - 48)
  else if 97 ≤ c.toNat ∧ c.toNat ≤ 102 then some (c.toNat - 87)
  else if 65 ≤ c.toNat ∧ c.toNat ≤ 70 then some (c.toNat - 55)
  else none

/-- Two hexadecimal digits as one byte value (Sscanf %02x). -/
def parseHexByte (a b : Char) : Option Nat :=
  match hexDigitVal a, hexDigitVal b with
  | some x, some y => some (16 * x + y)
  | _, _ => none

/-- ParseColor: strip an optional leading hash sign, then read RGB from six
hex digits (alpha 255) or RGBA from eight; anything else is an error,
modelled as none. -/
def ParseColor (hex : List Char) : Option (Nat × Nat × Nat × Nat) :=
  match hex with
  | [] => none
  | c0 :: rest0 =>
    let h := if c0 = '#' then rest0 else c0 :: rest0
    match h with
    | [a, b, c, d, e, f] =>
      match parseHexByte a b, parseHexByte c d, parseHexByte e f with
      | some r, some g, some bl => some (r, g, bl, 255)
      | _, _, _ => none
    | [a, b, c, d, e, f, g2, h2] =>
      match parseHexByte a b, parseHexByte c d, parseHexByte e f,
            parseHexByte g2 h2 with
      | some r, some g, some bl, some al => some (r, g, bl, al)
      | _, _, _, _ => none
    | _ => none

/-- Compositor state (struct Scaffold of internal/img), restricted to the
fields involved in accumulation: the content buffer and the configuration
read by AddContent and the raw-write branch. -/
structure Scaffold where
  content : List ColoredRune
  columns : Int
  currentTheme : Theme
  customPrompt : String
  highlightEnabled : Bool
  noPromptDetect : Bool
deriving DecidableEq

/-- NewImageCreator, restricted to the accumulation fields: empty content,
auto columns, default theme, no custom prompt, highlighting off, prompt
detection on. -/
def newScaffold : Scaffold :=
  { content := [], columns := 0, currentTheme := GetTheme "default",
    customPrompt := "", highlightEnabled := false, noPromptDetect := false }

/-- GetFixedColumns: the configured column count when it is non-zero,
otherwise the ambient terminal width (term.GetTerminalSize, an external
collaborator modelled as the explicit argument termWidth). -/
def GetFixedColumns (s : Scaffold) (termWidth : Int) : Int :=
  if s.columns ≠ 0 then s.columns else termWidth

/-- UTF-8 encoding of one rune, as Go produces when building a string from
runes. -/
def utf8Bytes (c : Char) : List Nat :=
  let n := c.toNat
  if n < 128 then [n]
  else if n < 2048 then [192 + n / 64, 128 + n % 64]
  else if n < 65536 then
    [224 + n / 4096, 128 + (n / 64) % 64, 128 + n % 64]
  else
    [240 + n / 262144, 128 + (n / 4096) % 64, 128 + (n / 64) % 64, 128 + n % 64]

/-- UTF-8 bytes of a rune sequence (the Go string built from it). -/
def strBytes (l : List Char) : List Nat := (l.map utf8Bytes).flatten

/-- The recognized prompt glyphs, in source order. -/
def promptIndicators : List (List Char) :=
  [['➜'], ['❯'], ['$'], [Char.ofNat 35], ['λ'], ['→'], ['%']]

/-- getFirstLine: the symbols of the sequence up to the first newline. -/
def getFirstLine (parsed : List ColoredRune) : List Char :=
  (parsed.map ColoredRune.symbol).takeWhile (fun c => c ≠ '\n')

/-- getLineAt: the symbols from the given position up to the next
newline. -/
def getLineAt (parsed : List ColoredRune) (start : Nat) : List Char :=
  ((parsed.drop start).map ColoredRune.symbol).takeWhile (fun c => c ≠ '\n')

/-- White-space test of unicode.IsSpace on a rune. -/
def isSpaceRune (c : Char) : Bool :=
  let n := c.toNat
  n = 9 || n = 10 || n = 11 || n = 12 || n = 13 || n = 32 || n = 133 ||
  n = 160 || n = 5760 || (8192 ≤ n && n ≤ 8202) || n = 8232 || n = 8233 ||
  n = 8239 || n = 8287 || n = 12288

/-- strings.TrimSpace on a rune list. -/
def trimSpace (l : List Char) : List Char :=
  ((l.dropWhile isSpaceRune).reverse.dropWhile isSpaceRune).reverse

/-- The whitespace-copy loop of highlightCommandLine: while the byte
position exceeds whitespaceStart (a gap that shrinks by one per
iteration) and runes remain, copy the original rune.  Returns the copied
runes and the final rune position. -/
def wsLoop (line : List ColoredRune) : Nat → Nat → List ColoredRune × Nat
  | 0, runePos => ([], runePos)
  | gap + 1, runePos =>
    if h : runePos < line.length then
      let step := wsLoop line gap (runePos + 1)
      (line.get ⟨runePos, h⟩ :: step.1, step.2)
    else ([], runePos)

/-- The loop of highlightCommandLine that advances the command-end rune
index by whole runes while the byte index is below commandEnd.  The fuel
argument bounds the iteration count; commandEnd iterations always
suffice because the byte index grows by at least one per step. -/
def cmdEndLoop (line : List ColoredRune) :
    Nat → Nat → Nat → Nat → Nat
  | 0, _, _, cER => cER
  | fuel + 1, i, cEnd, cER =>
    if i < cEnd ∧ cER < line.length then
      cmdEndLoop line fuel
        (i + (utf8Bytes (line.getD cER blankRune).symbol).length) cEnd (cER + 1)
    else cER

/-- highlightCommandLine: recolor the prompt glyph with a fixed magenta,
recolor the first word after it with the theme green, and keep the rest
of the line unchanged.  Byte positions are computed over the UTF-8 bytes
of the line text exactly as the Go code indexes the string. -/
def highlightCommandLine (s : Scaffold) (line : List ColoredRune) :
    List ColoredRune :=
  let text : List Char := line.map ColoredRune.symbol
  let bytes : List Nat := strBytes text
  match promptIndicators.find? (fun ind => (strBytes ind).isPrefixOf bytes) with
  | none => line
  | some ind =>
    let promptCharCount := ind.length
    let promptEnd0 := (strBytes ind).length
    let spaces := ((bytes.drop promptEnd0).takeWhile (fun b => b = 32)).length
    let commandStart := promptEnd0 + spaces
    let commandEnd := commandStart +
      ((bytes.drop commandStart).takeWhile (fun b => ¬ (b = 32 ∨ b = 9))).length
    let promptSettings : Nat := 1 + 203 * 256 + 166 * 65536 + 247 * 16777216
    let greenColor :=
      match ParseColor s.currentTheme.green.toList with
      | some c => c
      | none => (166, 227, 161, 255)
    let commandSettings : Nat :=
      1 + greenColor.1 * 256 + greenColor.2.1 * 65536 + greenColor.2.2.1 * 16777216
    let promptPart := (line.take promptCharCount).map
      fun cr => ({ symbol := cr.symbol, settings := promptSettings } : ColoredRune)
    let ws := wsLoop line spaces promptCharCount
    let commandEndRune := cmdEndLoop line commandEnd commandStart commandEnd ws.2
    let greenPart := ((line.drop ws.2).take (commandEndRune - ws.2)).map
      fun cr => ({ symbol := cr.symbol, settings := commandSettings } : ColoredRune)
    let restPart := line.drop commandEndRune
    promptPart ++ ws.1 ++ greenPart ++ restPart

/-- enhanceRawContent: when enabled and the first line starts with a
recognized prompt glyph and ends in a newline, highlight that line,
insert a blank separator line unless the following line is blank or is
itself a prompt line, and keep the remaining content unchanged. -/
def enhanceRawContent (s : Scaffold) (parsed : List ColoredRune) :
    List ColoredRune :=
  if parsed.length = 0 then parsed
  else if s.noPromptDetect then parsed
  else
    let firstLine := getFirstLine parsed
    let hasPrompt := promptIndicators.any
      (fun ind => (strBytes ind).isPrefixOf (strBytes firstLine))
    if ¬ hasPrompt then parsed
    else
      match parsed.findIdx? (fun cr => cr.symbol == '\n') with
      | none => parsed
      | some k =>
        if k = 0 then parsed
        else
          let commandLine := parsed.take k
          let highlighted := highlightCommandLine s commandLine
          let base := highlighted ++
            [({ symbol := '\n', settings := 0 } : ColoredRune)]
          let hasOutputAfter := k + 1 < parsed.length
          let withGap :=
            if hasOutputAfter then
              let nextLine := getLineAt parsed (k + 1)
              let isNextPrompt := promptIndicators.any
                (fun ind => (strBytes ind).isPrefixOf (strBytes nextLine))
              if ¬ isNextPrompt ∧ trimSpace nextLine ≠ [] then
                base ++ [({ symbol := '\n', settings := 0 } : ColoredRune)]
              else base
            else base
          if hasOutputAfter then withGap ++ parsed.drop (k + 1) else withGap

/-- The wrap loop of AddContent: a per-line counter that resets at every
newline; when the counter exceeds the column limit a synthetic break
carrying the current settings is inserted before the overflowing
character and the counter resets. -/
def wrapContent (cols : Int) : Int → List ColoredRune → List ColoredRune
  | _, [] => []
  | counter, cr :: rest =>
    let c1 := counter + 1
    let c2 := if cr.symbol = '\n' then 0 else c1
    if cols < c2 then
      ({ symbol := '\n', settings := cr.settings } : ColoredRune) :: cr ::
        wrapContent cols 0 rest
    else cr :: wrapContent cols c2 rest

/-- AddContent on an already-decoded styled sequence: prompt enhancement,
then the wrap loop at GetFixedColumns, appended to the content buffer. -/
def AddContent (s : Scaffold) (termWidth : Int) (input : List ColoredRune) :
    Scaffold :=
  { s with content := s.content ++
      wrapContent (GetFixedColumns s termWidth) 0 (enhanceRawContent s input) }

/-- Modelled from the spec: WriteRaw emits the character data of the
content buffer as a plain byte stream (the bunt rendering of unstyled
runes, an external collaborator, is the identity on the symbols). -/
def WriteRawPlain (s : Scaffold) : List Char :=
  s.content.map ColoredRune.symbol

/-- The raw-write branch of the root command: with the configured column
count applied, the branch temporarily sets the column count to zero,
accumulates the content, and emits it raw. -/
def rawWriteRun (termWidth : Int) (configuredColumns : Int)
    (input : List ColoredRune) : List Char :=
  let s0 := { newScaffold with columns := configuredColumns }
  let s1 := { s0 with columns := 0 }
  let s2 := AddContent s1 termWidth input
  WriteRawPlain s2

/-- Token categories of the shell lexer (internal/highlight). -/
inductive TokenType where
  | commandT
  | keywordT
  | flagT
  | stringT
  | variableT
  | operatorT
  | commentT
  | numberT
  | pathT
  | defaultT
deriving DecidableEq

/-- One lexer token: category and literal byte text. -/
structure Token where
  ttype : TokenType
  value : List Nat
deriving DecidableEq

/-- Byte-level unicode.IsSpace as the Go code applies it to one input byte
converted to a rune: the Latin-1 white-space code points. -/
def isSpaceB (c : Nat) : Bool :=
  c = 9 || c = 10 || c = 11 || c = 12 || c = 13 || c = 32 || c = 133 || c = 160

/-- Byte-level unicode.IsLetter on one input byte converted to a rune: the
Latin-1 letter code points. -/
def isLetterB (c : Nat) : Bool :=
  (65 ≤ c && c ≤ 90) || (97 ≤ c && c ≤ 122) || c = 170 || c = 181 || c = 186 ||
  (192 ≤ c && c ≤ 214) || (216 ≤ c && c ≤ 246) || (248 ≤ c && c ≤ 255)

/-- Byte-level unicode.IsDigit on one input byte converted to a rune. -/
def isDigitB (c : Nat) : Bool := 48 ≤ c && c ≤ 57

/-- The operator character set of Tokenize: pipe, ampersand, semicolon,
angle brackets, parentheses, square brackets, curly brackets, bang,
asterisk. -/
def operChars : List Nat := [124, 38, 59, 60, 62, 40, 41, 91, 93, 123, 125, 33, 42]

/-- The word break set of tokenizeWord: the operator-like punctuation plus
double quote, single quote, backquote, dollar and hash. -/
def wordBreakChars : List Nat :=
  [124, 38, 59, 60, 62, 40, 41, 91, 93, 123, 125, 34, 39, 96, 36, 35]

/-- The break set of tokenizeFlag: as the word break set but without the
hash character. -/
def flagBreakChars : List Nat :=
  [124, 38, 59, 60, 62, 40, 41, 91, 93, 123, 125, 34, 39, 96, 36]

/-- Conversion of one byte value to a Go string, as string(ch) performs on
a rune: the UTF-8 encoding of the code point, two bytes for values of
128 and above. -/
def encodeRuneB (c : Nat) : List Nat :=
  if c < 128 then [c] else [192 + c / 64, 128 + c % 64]

/-- The scan loop of tokenizeString after the opening quote: stop after an
unescaped closing quote; a backslash followed by another character
consumes both; a trailing backslash consumes one byte.  Returns the
consumed bytes and the remaining input. -/
def scanStrAux (q : Nat) : List Nat → List Nat × List Nat
  | [] => ([], [])
  | c :: rest =>
    if c = q then ([c], rest)
    else if c = 92 then
      match rest with
      | [] => ([c], [])
      | d :: rest2 =>
        let p := scanStrAux q rest2
        (c :: d :: p.1, p.2)
    else
      let p := scanStrAux q rest
      (c :: p.1, p.2)

/-- Name byte test of the dollar-NAME form of tokenizeVariable. -/
def isVarNameB (c : Nat) : Bool := isLetterB c || isDigitB c || c = 95

/-- tokenizeVariable after the dollar sign: a curly-bracket form runs to
the matching closing bracket (or the end of input when unterminated),
otherwise letters, digits and underscores are consumed.  Returns the
consumed bytes after the dollar sign and the remaining input. -/
def scanVar : List Nat → List Nat × List Nat
  | [] => ([], [])
  | c :: rest =>
    if c = 123 then
      let body := rest.takeWhile (fun b => b ≠ 125)
      match rest.dropWhile (fun b => b ≠ 125) with
      | [] => (c :: body, [])
      | _ :: after => (c :: (body ++ [125]), after)
    else
      ((c :: rest).takeWhile isVarNameB, (c :: rest).dropWhile isVarNameB)

/-- tokenizeOperator: one character, or two for the recognized
two-character combinations. -/
def scanOper (c : Nat) : List Nat → List Nat × List Nat
  | [] => ([c], [])
  | d :: rest =>
    if (c = 124 && d = 124) || (c = 38 && d = 38) || (c = 62 && d = 62) ||
       (c = 60 && d = 60) || (c = 62 && d = 38) || (c = 60 && d = 38) then
      ([c, d], rest)
    else ([c], d :: rest)

/-- Break test of tokenizeFlag. -/
def isFlagBreak (b : Nat) : Bool := isSpaceB b || flagBreakChars.contains b

/-- The flag guard of Tokenize: a dash starts a flag only when another
byte follows and that byte is not white space. -/
def flagGuard (rest : List Nat) : Bool :=
  match rest with
  | d :: _ => !isSpaceB d
  | [] => false

/-- tokenizeFlag after the leading dash: an immediately following second
dash is consumed, then bytes run to the flag break set.  Returns the
consumed bytes after the leading dash and the remaining input. -/
def scanFlag (l : List Nat) : List Nat × List Nat :=
  match l with
  | d :: l2 =>
    if d = 45 then
      (d :: l2.takeWhile (fun b => !isFlagBreak b),
       l2.dropWhile (fun b => !isFlagBreak b))
    else
      ((d :: l2).takeWhile (fun b => !isFlagBreak b),
       (d :: l2).dropWhile (fun b => !isFlagBreak b))
  | [] => ([], [])

/-- Break test of tokenizeWord. -/
def isWordBreak (b : Nat) : Bool := isSpaceB b || wordBreakChars.contains b

/-- Word start test of Tokenize: letter, digit, dot, slash, underscore or
tilde. -/
def isWordStart (c : Nat) : Bool :=
  isLetterB c || isDigitB c || c = 46 || c = 47 || c = 95 || c = 126

/-- The shell keyword set. -/
def shellKeywords : List (List Nat) :=
  (["if", "then", "else", "elif", "fi",
    "case", "esac", "for", "while", "until",
    "do", "done", "in", "function", "select",
    "time", "coproc", "return", "break", "continue",
    "export", "local", "readonly", "declare", "typeset",
    "alias", "unalias", "set", "unset", "shift",
    "source", "exec", "eval", "test", "cd",
    "echo", "printf", "read", "exit", "true", "false"] : List String).map
    (fun s => s.toList.map Char.toNat)

/-- Category of a bare word, including the retroactive rewrite of the
token type that Tokenize performs after tokenizeWord returns. -/
def classifyWord (isFirst : Bool) (w : List Nat) : TokenType :=
  if isFirst then
    if shellKeywords.contains w then .keywordT else .commandT
  else if shellKeywords.contains w then .keywordT
  else if [47].isPrefixOf w || [46, 47].isPrefixOf w ||
          [46, 46, 47].isPrefixOf w || [126, 47].isPrefixOf w then .pathT
  else if decide (w ≠ []) && w.all isDigitB then .numberT
  else .defaultT

/-- The main loop of Lexer.Tokenize with explicit fuel; every iteration
consumes at least one byte, so fuel equal to the input length
suffices. -/
def tokenizeAux : Nat → Bool → List Nat → List Token
  | 0, _, _ => []
  | _, _, [] => []
  | fuel + 1, isFirst, c :: rest =>
    if isSpaceB c then
      { ttype := .defaultT, value := encodeRuneB c } :: tokenizeAux fuel isFirst rest
    else if c = 35 then
      { ttype := .commentT, value := (c :: rest).takeWhile (fun b => b ≠ 10) } ::
        tokenizeAux fuel isFirst ((c :: rest).dropWhile (fun b => b ≠ 10))
    else if c = 34 || c = 39 || c = 96 then
      let p := scanStrAux c rest
      { ttype := .stringT, value := c :: p.1 } :: tokenizeAux fuel false p.2
    else if c = 36 then
      let p := scanVar rest
      { ttype := .variableT, value := c :: p.1 } :: tokenizeAux fuel false p.2
    else if operChars.contains c then
      let p := scanOper c rest
      { ttype := .operatorT, value := p.1 } ::
        tokenizeAux fuel (if c = 124 || c = 38 || c = 59 then true else isFirst) p.2
    else if c = 45 && flagGuard rest then
      let p := scanFlag rest
      { ttype := .flagT, value := c :: p.1 } :: tokenizeAux fuel false p.2
    else if isWordStart c then
      let w := (c :: rest).takeWhile (fun b => !isWordBreak b)
      { ttype := classifyWord isFirst w, value := w } ::
        tokenizeAux fuel false ((c :: rest).dropWhile (fun b => !isWordBreak b))
    else
      { ttype := .defaultT, value := encodeRuneB c } :: tokenizeAux fuel isFirst rest

/-- Lexer.Tokenize of internal/highlight on the byte string input. -/
def Tokenize (input : List Nat) : List Token :=
  tokenizeAux input.length true input

/-- Concatenation of the literal texts of a token sequence. -/
def tokenValuesJoin (ts : List Token) : List Nat :=
  (ts.map Token.value).flatten

/-- ASCII byte string s as a byte list (all keyword and test strings used
here are ASCII, where byte and code point agree). -/
def asciiBytes (s : String) : List Nat := s.toList.map Char.toNat

/-- White-space characters of the JSON grammar. -/
def jsonWSChar (c : Char) : Bool := c = ' ' || c = '\t' || c = '\n' || c = '\r'

/-- Modelled from the spec: the JSON string scanner of the encoding/json
collaborator (stdlib, outside src), restricted to strings without escape
sequences, which covers the flat hex-string fields of the theme-file
format.  The opening quote has been consumed; returns the body and the
input after the closing quote, or none at an escape or when the string
is unterminated. -/
def jsonString (l : List Char) : Option (List Char × List Char) :=
  let body := l.takeWhile (fun c => !(c = '"' || c = '\\'))
  match l.dropWhile (fun c => !(c = '"' || c = '\\')) with
  | '"' :: rest => some (body, rest)
  | _ => none

/-- Modelled from the spec: the member list parser of a flat JSON object
with string values, with explicit fuel.  Returns the key-value pairs and
the input remaining at the closing bracket. -/
def jsonPairsAux : Nat → List Char → Option (List (List Char × List Char) × List Char)
  | 0, _ => none
  | fuel + 1, l =>
    match l.dropWhile jsonWSChar with
    | '"' :: r1 =>
      match jsonString r1 with
      | some (key, r2) =>
        match r2.dropWhile jsonWSChar with
        | ':' :: r4 =>
          match (r4.dropWhile jsonWSChar) with
          | '"' :: r6 =>
            match jsonString r6 with
            | some (val, r7) =>
              match r7.dropWhile jsonWSChar with
              | ',' :: r9 =>
                match jsonPairsAux fuel r9 with
                | some (ps, rest) => some ((key, val) :: ps, rest)
                | none => none
              | r8 => some ([(key, val)], r8)
            | none => none
          | _ => none
        | _ => none
      | none => none
    | _ => none

/-- Modelled from the spec: json.Unmarshal of the encoding/json
collaborator (stdlib, outside src) applied to the flat string-valued
theme-file object: a document that is not such an object is an error
(none); otherwise the key-value pairs are returned, with no requirement
that any particular key be present. -/
def jsonParseFlatObject (l : List Char) : Option (List (List Char × List Char)) :=
  match l.dropWhile jsonWSChar with
  | c :: r1 =>
    if c = Char.ofNat 123 then
      match r1.dropWhile jsonWSChar with
      | d :: r3 =>
        if d = Char.ofNat 125 then
          if (r3.dropWhile jsonWSChar) = [] then some [] else none
        else
          match jsonPairsAux (r1.length + 1) (r1.dropWhile jsonWSChar) with
          | some (ps, rest) =>
            match rest with
            | e :: r4 =>
              if e = Char.ofNat 125 ∧ (r4.dropWhile jsonWSChar) = [] then some ps
              else none
            | [] => none
          | none => none
      | [] => none
    else none
  | [] => none

/-- The zero value of the Theme struct, as json.Unmarshal leaves fields
that the document does not mention. -/
def zeroTheme : Theme :=
  { name := "", background := "", foreground := "",
    windowRed := "", windowYellow := "", windowGreen := "",
    windowBorder := "", shadow := "",
    black := "", red := "", green := "", yellow := "", blue := "",
    magenta := "", cyan := "", white := "",
    brightBlack := "", brightRed := "", brightGreen := "",
    brightYellow := "", brightBlue := "", brightMagenta := "",
    brightCyan := "", brightWhite := "" }

/-- Field assignment by JSON tag: a known key sets the matching field, an
unknown key is ignored. -/
def setThemeField (t : Theme) (k v : List Char) : Theme :=
  let s := String.mk v
  if k = "name".toList then { t with name := s }
  else if k = "background".toList then { t with background := s }
  else if k = "foreground".toList then { t with foreground := s }
  else if k = "window_red".toList then { t with windowRed := s }
  else if k = "window_yellow".toList then { t with windowYellow := s }
  else if k = "window_green".toList then { t with windowGreen := s }
  else if k = "window_border".toList then { t with windowBorder := s }
  else if k = "shadow".toList then { t with shadow := s }
  else if k = "black".toList then { t with black := s }
  else if k = "red".toList then { t with red := s }
  else if k = "green".toList then { t with green := s }
  else if k = "yellow".toList then { t with yellow := s }
  else if k = "blue".toList then { t with blue := s }
  else if k = "magenta".toList then { t with magenta := s }
  else if k = "cyan".toList then { t with cyan := s }
  else if k = "white".toList then { t with white := s }
  else if k = "bright_black".toList then { t with brightBlack := s }
  else if k = "bright_red".toList then { t with brightRed := s }
  else if k = "bright_green".toList then { t with brightGreen := s }
  else if k = "bright_yellow".toList then { t with brightYellow := s }
  else if k = "bright_blue".toList then { t with brightBlue := s }
  else if k = "bright_magenta".toList then { t with brightMagenta := s }
  else if k = "bright_cyan".toList then { t with brightCyan := s }
  else if k = "bright_white".toList then { t with brightWhite := s }
  else t

/-- LoadThemeFromFile on the already-read file content: unmarshal the
document into a Theme, propagating a decode failure as an error and
leaving fields that the document does not mention at their zero value
(no fallback substitution). -/
def LoadThemeFromFile (content : List Char) : Except String Theme :=
  match jsonParseFlatObject content with
  | some ps => .ok (ps.foldl (fun t p => setThemeField t p.1 p.2) zeroTheme)
  | none => .error "failed to parse theme file"

/-- Invariant of the virtual terminal state: both cursor coordinates are
non-negative and the row indexed by the cursor exists. -/
def VTInv (vt : VirtualTerminal) : Prop :=
  0 ≤ vt.cursorX ∧ 0 ≤ vt.cursorY ∧ vt.cursorY < (vt.lines.length : Int)

/-- Magenta prompt settings written by highlightCommandLine: foreground
flag plus RGB 203, 166, 247 in bits 8 to 31. -/
def promptMagentaSettings : Nat := 1 + 203 * 256 + 166 * 65536 + 247 * 16777216

/-- Command settings written by highlightCommandLine under the default
theme: foreground flag plus the RGB of hash 98C379 in bits 8 to 31. -/
def commandGreenSettings : Nat := 1 + 152 * 256 + 195 * 65536 + 121 * 16777216

/- ------------------------------------------------------------------ -/
/- Theorems.                                                           -/
/- ------------------------------------------------------------------ -/

/-- Claim C1 (code bug, evaluation at the failing input): with
maxColumns = 5, a run of 12 plain characters does not produce three
lines of at most five characters.  VirtualTerminal.Parse aborts with an
out-of-range row write (a Go runtime panic) when the sixth character
forces a wrap onto a freshly created empty row, and the compositor wrap
step of AddContent yields line lengths 5, 6, 1 — the second line exceeds
the limit because the counter reset after an inserted break skips the
overflowing character — although it does preserve the characters in
order. -/
theorem c1_wrap_failing_input :
    vtParseFull 5 (List.replicate 12 ({ symbol := 'a', settings := 0 } : ColoredRune))
      = PRes.crash
    ∧ (splitLines (wrapContent 5 0
        (List.replicate 12 ({ symbol := 'a', settings := 0 } : ColoredRune)))).map
          List.length = [5, 6, 1]
    ∧ (wrapContent 5 0
        (List.replicate 12 ({ symbol := 'a', settings := 0 } : ColoredRune))).filter
          (fun cr => cr.symbol ≠ '\n')
        = List.replicate 12 ({ symbol := 'a', settings := 0 } : ColoredRune) := by
  refine ⟨by decide, by decide, by decide⟩

/-- Claim C2 (counterexample): the tokenizer round trip fails on the
one-byte command string 0xA0 (a Latin-1 no-break space).  The lexer
treats the single byte as a white-space rune and emits the token text
string(0xA0), whose UTF-8 encoding is the two bytes 0xC2 0xA0, so the
concatenation of token literals differs from the input. -/
theorem c2_tokenize_counterexample :
    tokenValuesJoin (Tokenize [160]) = [194, 160]
    ∧ tokenValuesJoin (Tokenize [160]) ≠ [160] := by
  refine ⟨by decide, by decide⟩

/-- Claim C3 (counterexample): Parse is not the identity on every
styled-character sequence without control sequences.  A sequence of six
plain letters with maxColumns = 5 has no control characters of any kind,
yet Parse aborts with the out-of-range wrap write instead of returning
the input; and a sequence containing a carriage return (handled as a
plain character, not an escape sequence) is rewritten, not preserved. -/
theorem c3_identity_counterexample :
    vtParseFull 5 (plain "aaaaaa") = PRes.crash
    ∧ vtParseOut 80 (plain "a\rb") = some (plain "b") := by
  refine ⟨by decide, by decide⟩

/-- Claim C5 (counterexample): in raw-write mode the column-wrap step is
not bypassed.  The branch only resets the configured column count to
zero, and GetFixedColumns then falls back to the ambient terminal width;
with a terminal width of 3 the emitted output of hello newline world is
wrapped at three columns rather than preserved. -/
theorem c5_rawwrite_counterexample :
    rawWriteRun 3 3 (plain "hello\nworld") = "hel\nlo\nwor\nld".toList
    ∧ rawWriteRun 3 3 (plain "hello\nworld") ≠ "hello\nworld".toList := by
  refine ⟨by decide, by decide⟩

/-- Claim C6 (counterexample): loading a theme file with an incomplete
field set does not fail.  The empty JSON object decodes successfully,
every field of the resulting theme is the empty string, and no error is
returned. -/
theorem c6_incomplete_theme_counterexample :
    LoadThemeFromFile [Char.ofNat 123, Char.ofNat 125] = Except.ok zeroTheme := by
  decide

/-- Claim C6 (amended): a theme file that is not valid JSON fails with the
error propagated to the caller; a valid JSON theme file with missing
fields loads successfully with those fields left as empty strings, with
no fallback substitution (in particular the result is not the default
preset), while fields that are present are taken from the file. -/
theorem c6_theme_error_propagation :
    LoadThemeFromFile "nope".toList = Except.error "failed to parse theme file"
    ∧ LoadThemeFromFile [Char.ofNat 123, Char.ofNat 125] = Except.ok zeroTheme
    ∧ zeroTheme.background = "" ∧ zeroTheme ≠ defaultTheme
    ∧ LoadThemeFromFile ([Char.ofNat 123] ++ "\"name\": \"My Theme\"".toList
        ++ [Char.ofNat 125])
      = Except.ok { zeroTheme with name := "My Theme" } := by
  refine ⟨by decide, by decide, by decide, by decide, by decide⟩

/-- Claim C7 (confirmed): prompt detection.  For content starting with the
prompt glyph and ls -la, the first line is highlighted (glyph in the
fixed magenta, first word in the theme green), one blank line is
inserted, and the remaining lines are unchanged; for two consecutive
prompt lines no blank line is inserted between them. -/
theorem c7_prompt_detection :
    enhanceRawContent newScaffold (plain "❯ ls -la\nfile1\nfile2")
      = [{ symbol := '❯', settings := promptMagentaSettings },
         { symbol := ' ', settings := 0 },
         { symbol := 'l', settings := commandGreenSettings },
         { symbol := 's', settings := commandGreenSettings }]
        ++ plain " -la\n\nfile1\nfile2"
    ∧ enhanceRawContent newScaffold (plain "❯ ls\n❯ pwd\n")
      = [{ symbol := '❯', settings := promptMagentaSettings },
         { symbol := ' ', settings := 0 },
         { symbol := 'l', settings := commandGreenSettings },
         { symbol := 's', settings := commandGreenSettings }]
        ++ plain "\n❯ pwd\n" := by
  refine ⟨by decide, by decide⟩

/-- Claim C8 (confirmed): erase in line.  After writing abcdef and moving
the cursor to column 2 (wire form column 3), erase mode 0 leaves the row
content ab; erase mode 2 empties the current row regardless of the
cursor column. -/
theorem c8_erase_in_line :
    vtParseOut 80 (plain ("abcdef" ++ String.mk [escChar] ++ "[3G"
      ++ String.mk [escChar] ++ "[K")) = some (plain "ab")
    ∧ vtParseOut 80 (plain ("abcdef" ++ String.mk [escChar] ++ "[3G"
      ++ String.mk [escChar] ++ "[2K")) = some []
    ∧ ∀ x : Int,
        csiApply { lines := [plain "abcdef"], cursorX := x, cursorY := 0,
                   settings := 0, maxColumns := 80 } [2] 'K'
        = some { lines := [[]], cursorX := x, cursorY := 0,
                 settings := 0, maxColumns := 80 } := by
  refine ⟨by decide, by decide, fun x => rfl⟩

/-- Claim C10 (confirmed): GetTheme is total; for any name that is not one
of the preset keys it returns the default preset theme — never an error
and never an empty theme (the default differs from the zero theme). -/
theorem c10_gettheme_total (themeName : String)
    (h : themeName ∉ themesMap.map Prod.fst) :
    GetTheme themeName = defaultTheme ∧ defaultTheme ≠ zeroTheme := by
  constructor
  · unfold GetTheme
    have hnone : themesMap.find? (fun p => p.1 == themeName) = none := by
      rw [List.find?_eq_none]
      intro p hp
      simp only [beq_iff_eq]
      intro hEq
      exact h (List.mem_map.mpr ⟨p, hp, hEq⟩)
    rw [hnone]
  · decide

/-- Witness for c10_gettheme_total at a concrete unknown name. -/
theorem c10_gettheme_total_witness :
    GetTheme "no-such-theme" = defaultTheme ∧ defaultTheme ≠ zeroTheme :=
  c10_gettheme_total "no-such-theme" (by decide)

/-- The CSI parameter scan consumes at least the command letter, so the
remaining input is strictly shorter. -/
theorem csiScan_length {l : List ColoredRune} :
    ∀ {buf ps ps2 cmd rest}, csiScan l buf ps = some (ps2, cmd, rest) →
      rest.length < l.length := by
  induction l with
  | nil => intro buf ps ps2 cmd rest h; simp [csiScan] at h
  | cons c t ih =>
    intro buf ps ps2 cmd rest h
    simp only [csiScan] at h
    split_ifs at h with h1 h2
    · exact Nat.lt_succ_of_lt (ih h)
    · exact Nat.lt_succ_of_lt (ih h)
    · simp only [Option.some.injEq, Prod.mk.injEq] at h
      obtain ⟨-, -, hrest⟩ := h
      rw [← hrest]
      simp

/-- A handled CSI sequence consumes at least three characters. -/
theorem handleCSI_length {vt vt2 : VirtualTerminal} {l rest : List ColoredRune}
    (h : handleCSI vt l = some (vt2, rest)) : rest.length < l.length := by
  match l with
  | [] => simp [handleCSI] at h
  | [_] => simp [handleCSI] at h
  | a :: b :: t =>
    simp only [handleCSI] at h
    split at h
    · rename_i ps2 cmd r hscan
      split at h
      · rename_i vt3 happ
        simp only [Option.some.injEq, Prod.mk.injEq] at h
        have hlt := csiScan_length hscan
        simp only [List.length_cons]
        rw [← h.2]
        omega
      · exact absurd h (by simp)
    · exact absurd h (by simp)

/-- Every step of the Parse loop consumes at least one input character. -/
theorem parseStep_length {vt vt2 : VirtualTerminal} {l l2 : List ColoredRune}
    (h : parseStep vt l = some (vt2, l2)) : l2.length < l.length := by
  match l with
  | [] => simp [parseStep] at h
  | cr :: rest =>
    simp only [parseStep] at h
    split_ifs at h with h1 h2 h3 h4
    · match rest with
      | [] =>
        simp only [Option.some.injEq, Prod.mk.injEq] at h
        rw [← h.2]; simp
      | next :: t =>
        simp only at h
        by_cases hbr : next.symbol = '['
        · rw [if_pos hbr] at h
          split at h
          · rename_i vt3 r3 hcsi
            simp only [Option.some.injEq, Prod.mk.injEq] at h
            rw [← h.2]
            exact handleCSI_length hcsi
          · simp only [Option.some.injEq, Prod.mk.injEq] at h
            rw [← h.2]; simp
        · rw [if_neg hbr] at h
          simp only [Option.some.injEq, Prod.mk.injEq] at h
          rw [← h.2]; simp
    · simp only [Option.some.injEq, Prod.mk.injEq] at h
      rw [← h.2]; simp
    · simp only [Option.some.injEq, Prod.mk.injEq] at h
      rw [← h.2]; simp
    · simp only [Option.some.injEq, Prod.mk.injEq] at h
      rw [← h.2]; simp
    · simp only [Option.some.injEq, Prod.mk.injEq] at h
      rw [← h.2]; simp
    · split at h
      · rename_i vt3 hw
        simp only [Option.some.injEq, Prod.mk.injEq] at h
        rw [← h.2]; simp
      · exact absurd h (by simp)

/-- Claim C4 (confirmed): the Parse loop always makes forward progress.
Every step consumes at least one character; when the input continues
with ESC [ but the parameter scan reaches the end of the input without
finding a command letter, the step consumes exactly the escape
character, leaving the input one character past the introducer; and the
loop therefore completes within fuel equal to the input length — a
single left-to-right pass that terminates on every input, including one
ending in an unterminated escape sequence. -/
theorem c4_forward_progress :
    (∀ (vt vt2 : VirtualTerminal) (l l2 : List ColoredRune),
      parseStep vt l = some (vt2, l2) → l2.length < l.length)
    ∧ (∀ (vt : VirtualTerminal) (s1 s2 : Nat) (t : List ColoredRune),
        csiScan t none [] = none →
        parseStep vt ({ symbol := escChar, settings := s1 }
            :: { symbol := '[', settings := s2 } :: t)
          = some (vt, { symbol := '[', settings := s2 } :: t))
    ∧ (∀ (fuel : Nat) (vt : VirtualTerminal) (l : List ColoredRune),
        l.length ≤ fuel → parseLoopF fuel vt l ≠ PRes.fuelOut) := by
  refine ⟨fun vt vt2 l l2 h => parseStep_length h, ?_, ?_⟩
  · intro vt s1 s2 t hscan
    simp [parseStep, handleCSI, hscan]
  · intro fuel
    induction fuel with
    | zero =>
      intro vt l hl
      match l with
      | [] => simp [parseLoopF]
      | _ :: _ => simp at hl
    | succ n ih =>
      intro vt l hl
      match l with
      | [] => simp [parseLoopF]
      | cr :: rest =>
        rw [parseLoopF]
        rcases hstep : parseStep vt (cr :: rest) with - | ⟨vt2, rest2⟩
        · simp
        · have hlen := parseStep_length hstep
          simp only [List.length_cons] at hlen hl
          simp only []
          exact ih vt2 rest2 (by omega)

/-- Witness for c4_forward_progress: the unterminated sequence ESC [ at
the end of the input advances by exactly one character, that step
consumed one of the two input characters, and the loop with fuel equal
to the input length does not run out of fuel. -/
theorem c4_forward_progress_witness :
    parseStep (NewVirtualTerminal 5)
        [{ symbol := escChar, settings := 0 }, { symbol := '[', settings := 0 }]
      = some (NewVirtualTerminal 5, [{ symbol := '[', settings := 0 }])
    ∧ ([({ symbol := '[', settings := 0 } : ColoredRune)] : List ColoredRune).length < 2
    ∧ parseLoopF 2 (NewVirtualTerminal 5)
        [{ symbol := escChar, settings := 0 }, { symbol := '[', settings := 0 }]
      ≠ PRes.fuelOut :=
  ⟨c4_forward_progress.2.1 (NewVirtualTerminal 5) 0 0 [] (by decide),
   c4_forward_progress.1 (NewVirtualTerminal 5) (NewVirtualTerminal 5) _ _
     (c4_forward_progress.2.1 (NewVirtualTerminal 5) 0 0 [] (by decide)),
   c4_forward_progress.2.2 2 (NewVirtualTerminal 5) _ (by decide)⟩

/-- Length facts of ensureLineExists: rows are never removed, and the
requested non-negative row index exists afterwards. -/
theorem ensureLineExists_spec (l : List (List ColoredRune)) (y : Int) :
    (l.length : Int) ≤ ((ensureLineExists l y).length : Int)
    ∧ (0 ≤ y → y < ((ensureLineExists l y).length : Int)) := by
  unfold ensureLineExists
  simp only [List.length_append, List.length_replicate]
  constructor
  · push_cast; omega
  · intro hy; push_cast; omega

/-- The default-parameter rule yields a positive count. -/
theorem paramN_pos (ps : List Int) : 1 ≤ paramN ps := by
  cases ps with
  | nil => simp [paramN]
  | cons p t =>
    simp only [paramN]
    split_ifs with h <;> omega

/-- clearToEndOfLine preserves the terminal invariant. -/
theorem clearToEndOfLine_inv {vt : VirtualTerminal} (h : VTInv vt) :
    VTInv (clearToEndOfLine vt) := by
  obtain ⟨hx, hy, hlen⟩ := h
  simp only [clearToEndOfLine]
  split_ifs <;> first
    | exact ⟨hx, hy, by simp only [List.length_set]; exact hlen⟩
    | exact ⟨hx, hy, hlen⟩

/-- clearToBeginningOfLine preserves the terminal invariant. -/
theorem clearToBeginningOfLine_inv {vt : VirtualTerminal} (h : VTInv vt) :
    VTInv (clearToBeginningOfLine vt) := by
  obtain ⟨hx, hy, hlen⟩ := h
  simp only [clearToBeginningOfLine]
  split_ifs <;> first
    | exact ⟨hx, hy, by simp only [List.length_set]; exact hlen⟩
    | exact ⟨hx, hy, hlen⟩

/-- clearLine preserves the terminal invariant. -/
theorem clearLine_inv {vt : VirtualTerminal} (h : VTInv vt) :
    VTInv (clearLine vt) := by
  obtain ⟨hx, hy, hlen⟩ := h
  simp only [clearLine]
  split_ifs <;> first
    | exact ⟨hx, hy, by simp only [List.length_set]; exact hlen⟩
    | exact ⟨hx, hy, hlen⟩

/-- clearToEndOfScreen preserves the terminal invariant. -/
theorem clearToEndOfScreen_inv {vt : VirtualTerminal} (h : VTInv vt) :
    VTInv (clearToEndOfScreen vt) := by
  have h1 := clearToEndOfLine_inv h
  obtain ⟨hx, hy, hlen⟩ := h1
  simp only [clearToEndOfScreen]
  split_ifs with h2
  · refine ⟨hx, hy, ?_⟩
    simp only [List.length_take]
    omega
  · exact ⟨hx, hy, hlen⟩

/-- clearToBeginningOfScreen preserves the terminal invariant. -/
theorem clearToBeginningOfScreen_inv {vt : VirtualTerminal} (h : VTInv vt) :
    VTInv (clearToBeginningOfScreen vt) := by
  obtain ⟨hx, hy, hlen⟩ := h
  simp only [clearToBeginningOfScreen]
  exact clearToBeginningOfLine_inv ⟨hx, hy, by simpa using hlen⟩

/-- clearScreen establishes the terminal invariant. -/
theorem clearScreen_inv (vt : VirtualTerminal) : VTInv (clearScreen vt) := by
  unfold clearScreen VTInv
  simp

/-- Every handled CSI command preserves the terminal invariant. -/
theorem csiApply_inv {vt vt2 : VirtualTerminal} {ps : List Int} {cmd : Char}
    (hInv : VTInv vt) (h : csiApply vt ps cmd = some vt2) : VTInv vt2 := by
  obtain ⟨hx, hy, hlen⟩ := hInv
  have hn := paramN_pos ps
  unfold csiApply at h
  split_ifs at h with hA hB hC hD hG hHf hJ hK hsu
  · obtain rfl := Option.some.inj h
    refine ⟨hx, ?_, ?_⟩ <;> dsimp only <;> split_ifs <;> omega
  · obtain rfl := Option.some.inj h
    refine ⟨hx, ?_, ?_⟩ <;> dsimp only
    · omega
    · exact (ensureLineExists_spec _ _).2 (by omega)
  · obtain rfl := Option.some.inj h
    exact ⟨by dsimp only; omega, hy, hlen⟩
  · obtain rfl := Option.some.inj h
    refine ⟨?_, hy, hlen⟩
    dsimp only; split_ifs <;> omega
  · obtain rfl := Option.some.inj h
    refine ⟨?_, hy, hlen⟩
    dsimp only; split_ifs <;> omega
  · obtain rfl := Option.some.inj h
    refine ⟨?_, ?_, ?_⟩ <;> dsimp only
    · split_ifs <;> omega
    · split_ifs <;> omega
    · exact (ensureLineExists_spec _ _).2 (by split_ifs <;> omega)
  · dsimp only at h
    split_ifs at h with m0 m1 m23
    · obtain rfl := Option.some.inj h
      exact clearToEndOfScreen_inv ⟨hx, hy, hlen⟩
    · obtain rfl := Option.some.inj h
      exact clearToBeginningOfScreen_inv ⟨hx, hy, hlen⟩
    · obtain rfl := Option.some.inj h
      exact clearScreen_inv vt
    · obtain rfl := Option.some.inj h
      exact ⟨hx, hy, hlen⟩
  · dsimp only at h
    split_ifs at h with m0 m1 m2
    · obtain rfl := Option.some.inj h
      exact clearToEndOfLine_inv ⟨hx, hy, hlen⟩
    · obtain rfl := Option.some.inj h
      exact clearToBeginningOfLine_inv ⟨hx, hy, hlen⟩
    · obtain rfl := Option.some.inj h
      exact clearLine_inv ⟨hx, hy, hlen⟩
    · obtain rfl := Option.some.inj h
      exact ⟨hx, hy, hlen⟩
  · obtain rfl := Option.some.inj h
    exact ⟨hx, hy, hlen⟩

/-- A successful character write preserves the terminal invariant. -/
theorem writeChar_inv {vt vt2 : VirtualTerminal} {cr : ColoredRune}
    (hInv : VTInv vt) (h : writeChar vt cr = some vt2) : VTInv vt2 := by
  obtain ⟨hx, hy, hlen⟩ := hInv
  unfold writeChar at h
  dsimp only at h
  by_cases hwrap : vt.maxColumns ≤ vt.cursorX
  · rw [if_pos hwrap, if_pos hwrap, if_pos hwrap] at h
    split_ifs at h with hrange
    · obtain rfl := Option.some.inj h
      refine ⟨?_, ?_, ?_⟩ <;> dsimp only
      · omega
      · omega
      · simp only [List.length_set]
        exact (ensureLineExists_spec _ _).2 (by omega)
  · rw [if_neg hwrap, if_neg hwrap, if_neg hwrap] at h
    split_ifs at h with hrange
    · obtain rfl := Option.some.inj h
      refine ⟨?_, ?_, ?_⟩ <;> dsimp only
      · omega
      · omega
      · simp only [List.length_set]
        exact (ensureLineExists_spec _ _).2 hy

/-- Claim C9 (confirmed): the virtual-terminal invariant — cursor column
and cursor row non-negative after the step, the grid non-empty, and the
row indexed by the cursor existing — holds for a fresh terminal and is
preserved by every step of the Parse loop: character write, carriage
return, newline, backspace and every handled CSI command.  Within a
step, every row access is preceded by ensureLineExists or guarded by an
explicit length test, so the row read or written always exists. -/
theorem c9_cursor_grid_invariant :
    (∀ m : Int, VTInv (NewVirtualTerminal m))
    ∧ (∀ (vt vt2 : VirtualTerminal) (l l2 : List ColoredRune),
        VTInv vt → parseStep vt l = some (vt2, l2) → VTInv vt2) := by
  constructor
  · intro m
    unfold NewVirtualTerminal VTInv
    simp
  · intro vt vt2 l l2 hInv h
    match l with
    | [] => simp [parseStep] at h
    | cr :: rest =>
      obtain ⟨hx, hy, hlen⟩ := hInv
      simp only [parseStep] at h
      split_ifs at h with h1 h2 h3 h4
      · match rest with
        | [] =>
          simp only [Option.some.injEq, Prod.mk.injEq] at h
          rw [← h.1]; exact ⟨hx, hy, hlen⟩
        | next :: t =>
          simp only at h
          by_cases hbr : next.symbol = '['
          · rw [if_pos hbr] at h
            split at h
            · rename_i vt3 r3 hcsi
              simp only [Option.some.injEq, Prod.mk.injEq] at h
              rw [← h.1]
              simp only [handleCSI] at hcsi
              split at hcsi
              · rename_i ps2 cmd r hscan
                split at hcsi
                · rename_i vt4 happ
                  simp only [Option.some.injEq, Prod.mk.injEq] at hcsi
                  rw [← hcsi.1]
                  exact csiApply_inv ⟨hx, hy, hlen⟩ happ
                · exact absurd hcsi (by simp)
              · exact absurd hcsi (by simp)
            · simp only [Option.some.injEq, Prod.mk.injEq] at h
              rw [← h.1]; exact ⟨hx, hy, hlen⟩
          · rw [if_neg hbr] at h
            simp only [Option.some.injEq, Prod.mk.injEq] at h
            rw [← h.1]; exact ⟨hx, hy, hlen⟩
      · simp only [Option.some.injEq, Prod.mk.injEq] at h
        rw [← h.1]
        refine ⟨?_, ?_, ?_⟩ <;> dsimp only
        · omega
        · exact hy
        · exact hlen
      · simp only [Option.some.injEq, Prod.mk.injEq] at h
        rw [← h.1]
        refine ⟨?_, ?_, ?_⟩ <;> dsimp only
        · omega
        · omega
        · exact (ensureLineExists_spec _ _).2 (by omega)
      · simp only [Option.some.injEq, Prod.mk.injEq] at h
        rw [← h.1]
        refine ⟨?_, ?_, ?_⟩ <;> dsimp only
        · omega
        · exact hy
        · exact hlen
      · simp only [Option.some.injEq, Prod.mk.injEq] at h
        rw [← h.1]
        refine ⟨?_, ?_, ?_⟩ <;> dsimp only
        · omega
        · exact hy
        · exact hlen
      · split at h
        · rename_i vt3 hw
          simp only [Option.some.injEq, Prod.mk.injEq] at h
          rw [← h.1]
          exact writeChar_inv ⟨hx, hy, hlen⟩ hw
        · exact absurd h (by simp)

/-- Witness for c9_cursor_grid_invariant: the invariant holds for a fresh
5-column terminal, and after one concrete character-write step. -/
theorem c9_cursor_grid_invariant_witness :
    VTInv (NewVirtualTerminal 5)
    ∧ VTInv { lines := [[({ symbol := 'a', settings := 0 } : ColoredRune)]],
              cursorX := 1, cursorY := 0, settings := 0, maxColumns := 5 } :=
  ⟨c9_cursor_grid_invariant.1 5,
   c9_cursor_grid_invariant.2 (NewVirtualTerminal 5)
     { lines := [[{ symbol := 'a', settings := 0 }]], cursorX := 1, cursorY := 0,
       settings := 0, maxColumns := 5 }
     [{ symbol := 'a', settings := 0 }] []
     (c9_cursor_grid_invariant.1 5) (by decide)⟩

/-- The row split of a styled sequence is never empty. -/
theorem splitLines_ne_nil (l : List ColoredRune) : splitLines l ≠ [] := by
  cases l with
  | nil => simp [splitLines]
  | cons c rest =>
    simp only [splitLines]
    split
    · simp
    · split_ifs <;> simp

/-- Row split of a sequence starting with a newline. -/
theorem splitLines_cons_nl (c : ColoredRune) (rest : List ColoredRune)
    (h : c.symbol = '\n') : splitLines (c :: rest) = [] :: splitLines rest := by
  simp only [splitLines]
  split
  · rename_i heq; exact absurd heq (splitLines_ne_nil rest)
  · rename_i h0 t0 heq
    rw [if_pos h, ← heq]

/-- Row split of a sequence starting with an ordinary character. -/
theorem splitLines_cons_char (c : ColoredRune) (rest : List ColoredRune)
    (h : ¬ c.symbol = '\n') :
    splitLines (c :: rest)
      = (c :: (splitLines rest).headD []) :: (splitLines rest).tail := by
  simp only [splitLines]
  split
  · rename_i heq; exact absurd heq (splitLines_ne_nil rest)
  · rename_i h0 t0 heq
    rw [if_neg h, heq]
    simp

/-- The first row of the split is one of its rows. -/
theorem splitLines_headD_mem (l : List ColoredRune) :
    (splitLines l).headD [] ∈ splitLines l := by
  have hne := splitLines_ne_nil l
  cases h : splitLines l with
  | nil => exact absurd h hne
  | cons a t => simp

/-- The wrap loop of AddContent changes nothing when, starting from the
given counter value, no line reaches past the column limit. -/
theorem wrapContent_id (cols : Int) :
    ∀ (l : List ColoredRune) (counter : Int),
      0 ≤ counter →
      counter + (((splitLines l).headD []).length : Int) ≤ cols →
      (∀ row ∈ (splitLines l).tail, (row.length : Int) ≤ cols) →
      wrapContent cols counter l = l := by
  intro l
  induction l with
  | nil => intro counter h0 h1 h2; rfl
  | cons c rest ih =>
    intro counter h0 h1 h2
    by_cases hnl : c.symbol = '\n'
    · rw [splitLines_cons_nl c rest hnl] at h1 h2
      simp only [List.headD_cons, List.length_nil, List.tail_cons] at h1 h2
      have hc2 : (if c.symbol = '\n' then (0 : Int) else counter + 1) = 0 :=
        if_pos hnl
      simp only [wrapContent, hc2]
      rw [if_neg (by omega)]
      have hm := splitLines_headD_mem rest
      have hhead := h2 _ hm
      rw [ih 0 le_rfl (by omega)
        (fun row hrow => h2 row (List.mem_of_mem_tail hrow))]
    · rw [splitLines_cons_char c rest hnl] at h1 h2
      simp only [List.headD_cons, List.length_cons, List.tail_cons] at h1 h2
      have hc2 : (if c.symbol = '\n' then (0 : Int) else counter + 1)
          = counter + 1 := if_neg hnl
      simp only [wrapContent, hc2]
      rw [if_neg (by push_cast at h1 ⊢; omega)]
      rw [ih (counter + 1) (by omega) (by push_cast at h1 ⊢; omega) h2]

/-- Claim C5 (amended): in raw-write mode with columns=3 configured, the
wrap at the configured column count is bypassed (the branch sets the
count to zero), wrapping falls back to the ambient terminal width, and
for the input hello newline world the emitted raw output is exactly the
input whenever the terminal is at least five columns wide. -/
theorem c5_rawwrite_amended (w : Int) (hw : 5 ≤ w) :
    rawWriteRun w 3 (plain "hello\nworld") = "hello\nworld".toList := by
  unfold rawWriteRun AddContent WriteRawPlain
  dsimp only
  have he : enhanceRawContent
      { { newScaffold with columns := 3 } with columns := 0 }
      (plain "hello\nworld") = plain "hello\nworld" := by decide
  have hfc : GetFixedColumns
      { { newScaffold with columns := 3 } with columns := 0 } w = w := by
    unfold GetFixedColumns
    norm_num
  rw [he, hfc]
  have hhead : ((((splitLines (plain "hello\nworld")).headD []).length : Nat) : Int)
      = 5 := by decide
  have htail : (splitLines (plain "hello\nworld")).tail = [plain "world"] := by
    decide
  rw [wrapContent_id w (plain "hello\nworld") 0 le_rfl (by omega) ?_]
  · decide
  · intro row hrow
    rw [htail] at hrow
    simp only [List.mem_singleton] at hrow
    rw [hrow]
    have : ((plain "world").length : Int) = 5 := by decide
    omega

/-- Witness for c5_rawwrite_amended at a terminal width of 80. -/
theorem c5_rawwrite_amended_witness :
    rawWriteRun 80 3 (plain "hello\nworld") = "hello\nworld".toList :=
  c5_rawwrite_amended 80 (by decide)

/-- Reading at the juncture of an append. -/
theorem getD_append_self {α : Type} (l : List α) (a : α) (r : List α) (d : α) :
    (l ++ a :: r).getD l.length d = a := by
  induction l with
  | nil => rfl
  | cons x xs ih => simpa using ih

/-- Writing at the juncture of an append. -/
theorem set_append_self {α : Type} (l : List α) (a b : α) (r : List α) :
    (l ++ a :: r).set l.length b = l ++ b :: r := by
  induction l with
  | nil => rfl
  | cons x xs ih => simpa using ih

/-- ensureLineExists is the identity when the row already exists. -/
theorem ensureLineExists_noop (l : List (List ColoredRune)) (y : Int)
    (h : y < (l.length : Int)) : ensureLineExists l y = l := by
  unfold ensureLineExists
  have h0 : (y + 1 - l.length).toNat = 0 := by omega
  rw [h0]
  simp

/-- ensureLineExists appends exactly one empty row when asked for the row
one past the end. -/
theorem ensureLineExists_one (l : List (List ColoredRune)) (y : Int)
    (h : y = (l.length : Int)) : ensureLineExists l y = l ++ [[]] := by
  unfold ensureLineExists
  have h1 : (y + 1 - l.length).toNat = 1 := by omega
  rw [h1]
  rfl

/-- Evaluation of writeChar in the sequential-write state: the cursor at
the end of the current row, strictly inside the column limit. -/
theorem writeChar_plain (m : Int) (done : List (List ColoredRune))
    (cur : List ColoredRune) (c : ColoredRune)
    (hlt : (cur.length : Int) < m) :
    writeChar { lines := done ++ [cur], cursorX := (cur.length : Int),
                cursorY := (done.length : Int), settings := 0, maxColumns := m } c
      = some { lines := done ++ [cur ++ [c]], cursorX := (cur.length : Int) + 1,
               cursorY := (done.length : Int), settings := 0, maxColumns := m } := by
  unfold writeChar
  dsimp only
  have hw : ¬ (m ≤ (cur.length : Int)) := by omega
  have hrep : ((cur.length : Int) + 1 - ((cur.length : Nat) : Int)).toNat = 1 := by
    omega
  have hnoop : ensureLineExists (done ++ [cur]) ((done.length : Nat) : Int)
      = done ++ [cur] := ensureLineExists_noop _ _ (by simp)
  simp only [hw, ite_false, if_false, hnoop, Int.toNat_natCast, getD_append_self,
    hrep, List.replicate_one, set_append_self, List.length_append,
    List.length_cons, List.length_nil]
  rw [if_pos (by omega)]

/-- Evaluation of one Parse step on a newline in the sequential-write
state. -/
theorem parseStep_plain_nl (m : Int) (done : List (List ColoredRune))
    (cur rest : List ColoredRune) (c : ColoredRune) (hc : c.symbol = '\n') :
    parseStep { lines := done ++ [cur], cursorX := (cur.length : Int),
                cursorY := (done.length : Int), settings := 0, maxColumns := m }
      (c :: rest)
    = some ({ lines := (done ++ [cur]) ++ [[]], cursorX := 0,
              cursorY := (done.length : Int) + 1, settings := 0,
              maxColumns := m }, rest) := by
  have hA : ¬ (('\n' : Char) = escChar) := by decide
  have hB : ¬ (('\n' : Char) = '\r') := by decide
  simp only [parseStep, hc, hA, hB, if_false, if_true, ite_false, ite_true,
    eq_self_iff_true]
  have hens : ensureLineExists (done ++ [cur]) (((done.length : Nat) : Int) + 1)
      = (done ++ [cur]) ++ [[]] := ensureLineExists_one _ _ (by simp)
  rw [hens]

/-- Evaluation of one Parse step on an ordinary character in the
sequential-write state. -/
theorem parseStep_plain_char (m : Int) (done : List (List ColoredRune))
    (cur rest : List ColoredRune) (c : ColoredRune)
    (hesc : ¬ c.symbol = escChar) (hcr : ¬ c.symbol = '\r')
    (hnl : ¬ c.symbol = '\n') (hbs : ¬ c.symbol = bsChar)
    (hlt : (cur.length : Int) < m) :
    parseStep { lines := done ++ [cur], cursorX := (cur.length : Int),
                cursorY := (done.length : Int), settings := 0, maxColumns := m }
      (c :: rest)
    = some ({ lines := done ++ [cur ++ [c]], cursorX := (cur.length : Int) + 1,
              cursorY := (done.length : Int), settings := 0,
              maxColumns := m }, rest) := by
  simp only [parseStep, hesc, hcr, hnl, hbs, if_false, ite_false]
  rw [writeChar_plain m done cur c hlt]

/-- The Parse loop on control-free input whose rows fit in the column
limit: starting from completed rows and a current partial row, it
completes with the split rows of the input glued onto the current
row. -/
theorem parseLoopF_plain (m : Int) :
    ∀ (fuel : Nat) (input cur : List ColoredRune) (done : List (List ColoredRune)),
      input.length ≤ fuel →
      noCtrl input →
      (cur.length : Int) + (((splitLines input).headD []).length : Int) ≤ m →
      (∀ row ∈ (splitLines input).tail, (row.length : Int) ≤ m) →
      ∃ x y,
        parseLoopF fuel
          { lines := done ++ [cur], cursorX := (cur.length : Int),
            cursorY := (done.length : Int), settings := 0, maxColumns := m }
          input
        = PRes.ok { lines := done ++ glueLines cur (splitLines input),
                    cursorX := x, cursorY := y, settings := 0,
                    maxColumns := m } := by
  intro fuel
  induction fuel with
  | zero =>
    intro input cur done hfuel hctrl h1 h2
    have hnil : input = [] := List.length_eq_zero.mp (Nat.le_zero.mp hfuel)
    subst hnil
    exact ⟨(cur.length : Int), (done.length : Int), by
      simp [parseLoopF, splitLines, glueLines]⟩
  | succ n ih =>
    intro input cur done hfuel hctrl h1 h2
    match input with
    | [] =>
      exact ⟨(cur.length : Int), (done.length : Int), by
        simp [parseLoopF, splitLines, glueLines]⟩
    | c :: rest =>
      have hctrl2 : noCtrl rest := fun cr hm => hctrl cr (List.mem_cons_of_mem _ hm)
      have hcc := hctrl c (List.mem_cons_self _ _)
      have hfuel2 : rest.length ≤ n := by
        simp only [List.length_cons] at hfuel; omega
      by_cases hnl : c.symbol = '\n'
      · rw [splitLines_cons_nl c rest hnl] at h1 h2
        simp only [List.headD_cons, List.length_nil, List.tail_cons] at h1 h2
        obtain ⟨x, y, hIH⟩ := ih rest [] (done ++ [cur]) hfuel2 hctrl2
          (by
            have := h2 _ (splitLines_headD_mem rest)
            simp only [List.length_nil, Nat.cast_zero]
            omega)
          (fun row hrow => h2 row (List.mem_of_mem_tail hrow))
        refine ⟨x, y, ?_⟩
        rw [parseLoopF, parseStep_plain_nl m done cur rest c hnl]
        dsimp only
        simp only [List.length_nil, Nat.cast_zero, List.length_append,
          List.length_cons, Nat.cast_add, Nat.cast_one, Nat.cast_zero,
          zero_add] at hIH
        rw [hIH]
        cases hs : splitLines rest with
        | nil => exact absurd hs (splitLines_ne_nil rest)
        | cons h0 t0 =>
          rw [splitLines_cons_nl c rest hnl, hs]
          simp [glueLines, List.append_assoc]
      · rw [splitLines_cons_char c rest hnl] at h1 h2
        simp only [List.headD_cons, List.length_cons, List.tail_cons] at h1 h2
        have hlt : (cur.length : Int) < m := by push_cast at h1; omega
        obtain ⟨x, y, hIH⟩ := ih rest (cur ++ [c]) done hfuel2 hctrl2
          (by
            simp only [List.length_append, List.length_cons, List.length_nil]
            push_cast at h1 ⊢
            omega)
          h2
        refine ⟨x, y, ?_⟩
        rw [parseLoopF,
          parseStep_plain_char m done cur rest c hcc.1 hcc.2.1 hnl hcc.2.2 hlt]
        dsimp only
        simp only [List.length_append, List.length_cons, List.length_nil,
          Nat.cast_add, Nat.cast_one, Nat.cast_zero, zero_add] at hIH
        rw [hIH]
        cases hs : splitLines rest with
        | nil => exact absurd hs (splitLines_ne_nil rest)
        | cons h0 t0 =>
          rw [splitLines_cons_char c rest hnl, hs]
          simp [glueLines, List.append_assoc]

/-- Flattening the split rows reproduces the symbols of the original
sequence: the inserted break characters sit exactly at the original
newline positions. -/
theorem toBuntString_splitLines_map (l : List ColoredRune) :
    (toBuntString (splitLines l)).map ColoredRune.symbol
      = l.map ColoredRune.symbol := by
  induction l with
  | nil => rfl
  | cons c rest ih =>
    by_cases hnl : c.symbol = '\n'
    · rw [splitLines_cons_nl c rest hnl]
      cases hs : splitLines rest with
      | nil => exact absurd hs (splitLines_ne_nil rest)
      | cons h0 t0 =>
        rw [hs] at ih
        simp only [toBuntString, List.map_cons, List.map_append, List.nil_append,
          List.map_nil] at ih ⊢
        simp [hnl, ih]
    · rw [splitLines_cons_char c rest hnl]
      cases hs : splitLines rest with
      | nil => exact absurd hs (splitLines_ne_nil rest)
      | cons h0 t0 =>
        rw [hs] at ih
        cases t0 with
        | nil =>
          simp only [toBuntString, List.headD_cons, List.tail_cons] at ih ⊢
          simp [ih]
        | cons h1 t1 =>
          simp only [toBuntString, List.headD_cons, List.tail_cons,
            List.map_cons, List.map_append] at ih ⊢
          simp only [List.cons_append, List.map_cons]
          rw [← ih]

/-- Flattening the split rows keeps every non-newline character, with its
settings, in order. -/
theorem toBuntString_splitLines_filter (l : List ColoredRune) :
    (toBuntString (splitLines l)).filter (fun cr => cr.symbol ≠ '\n')
      = l.filter (fun cr => cr.symbol ≠ '\n') := by
  induction l with
  | nil => rfl
  | cons c rest ih =>
    by_cases hnl : c.symbol = '\n'
    · rw [splitLines_cons_nl c rest hnl]
      cases hs : splitLines rest with
      | nil => exact absurd hs (splitLines_ne_nil rest)
      | cons h0 t0 =>
        rw [hs] at ih
        simp only [toBuntString, List.nil_append] at ih ⊢
        rw [List.filter_cons_of_neg (by simp), List.filter_cons_of_neg (by simp [hnl])]
        exact ih
    · rw [splitLines_cons_char c rest hnl]
      cases hs : splitLines rest with
      | nil => exact absurd hs (splitLines_ne_nil rest)
      | cons h0 t0 =>
        rw [hs] at ih
        cases t0 with
        | nil =>
          simp only [toBuntString, List.headD_cons, List.tail_cons] at ih ⊢
          rw [List.filter_cons_of_pos (by simp [hnl]),
            List.filter_cons_of_pos (by simp [hnl])]
          rw [ih]
        | cons h1 t1 =>
          simp only [toBuntString, List.headD_cons, List.tail_cons,
            List.cons_append] at ih ⊢
          rw [List.filter_cons_of_pos (by simp [hnl]),
            List.filter_cons_of_pos (by simp [hnl])]
          simp only [List.filter_append] at ih ⊢
          rw [List.filter_cons_of_neg (by simp)] at ih ⊢
          rw [ih]

/-- Claim C3 (amended): on every styled-character sequence with no escape,
carriage-return or backspace characters, whose rows all fit in the
column limit, Parse succeeds and is the identity up to the settings of
the break characters at the original newline positions: the symbol
sequence is reproduced exactly, and every non-newline character is kept
unchanged (settings included) in order. -/
theorem c3_identity_amended (m : Int) (input : List ColoredRune)
    (hm : 0 < m) (hctrl : noCtrl input) (hfit : linesFit m input) :
    ∃ out, vtParseOut m input = some out
      ∧ out.map ColoredRune.symbol = input.map ColoredRune.symbol
      ∧ out.filter (fun cr => cr.symbol ≠ '\n')
          = input.filter (fun cr => cr.symbol ≠ '\n') := by
  obtain ⟨x, y, hrun⟩ := parseLoopF_plain m input.length input [] []
    le_rfl hctrl
    (by simpa using hfit _ (splitLines_headD_mem input))
    (fun row hrow => hfit row (List.mem_of_mem_tail hrow))
  refine ⟨toBuntString (splitLines input), ?_, toBuntString_splitLines_map input,
    toBuntString_splitLines_filter input⟩
  unfold vtParseOut vtParseFull
  have hnew : NewVirtualTerminal m
      = { lines := ([] : List (List ColoredRune)) ++ [[]],
          cursorX := ((List.length ([] : List ColoredRune) : Nat) : Int),
          cursorY := ((List.length ([] : List (List ColoredRune)) : Nat) : Int),
          settings := 0, maxColumns := m } := by
    unfold NewVirtualTerminal
    rw [if_neg (by omega)]
    simp
  rw [hnew, hrun]
  cases hs : splitLines input with
  | nil => exact absurd hs (splitLines_ne_nil input)
  | cons h0 t0 => simp [glueLines, hs]

/-- Witness for c3_identity_amended on a small concrete input. -/
theorem c3_identity_amended_witness :
    ∃ out, vtParseOut 80 (plain "hi\nthere") = some out
      ∧ out.map ColoredRune.symbol = (plain "hi\nthere").map ColoredRune.symbol
      ∧ out.filter (fun cr => cr.symbol ≠ '\n')
          = (plain "hi\nthere").filter (fun cr => cr.symbol ≠ '\n') :=
  c3_identity_amended 80 (plain "hi\nthere") (by decide) (by decide) (by decide)

/-- Concatenated token text of a cons. -/
theorem tokenValuesJoin_cons (t : Token) (ts : List Token) :
    tokenValuesJoin (t :: ts) = t.value ++ tokenValuesJoin ts := by
  simp [tokenValuesJoin]

/-- An ASCII byte encodes as itself. -/
theorem encodeRuneB_ascii {c : Nat} (h : c < 128) : encodeRuneB c = [c] := by
  unfold encodeRuneB
  rw [if_pos h]

/-- The head of a dropWhile result fails the predicate. -/
theorem dropWhile_head_false {α : Type} (p : α → Bool) :
    ∀ (l : List α) (x : α) (xs : List α), l.dropWhile p = x :: xs → p x = false := by
  intro l
  induction l with
  | nil => intro x xs h; simp [List.dropWhile] at h
  | cons a t ih =>
    intro x xs h
    rw [List.dropWhile_cons] at h
    split_ifs at h with hp
    · exact ih x xs h
    · obtain ⟨rfl, -⟩ := List.cons.inj h
      simpa using hp

/-- The string scanner splits its input. -/
theorem scanStrAux_split (q : Nat) :
    ∀ (n : Nat) (l : List Nat), l.length ≤ n →
      (scanStrAux q l).1 ++ (scanStrAux q l).2 = l := by
  intro n
  induction n with
  | zero =>
    intro l h
    have : l = [] := List.length_eq_zero.mp (Nat.le_zero.mp h)
    subst this; rfl
  | succ n ih =>
    intro l h
    match l with
    | [] => rfl
    | c :: rest =>
      rw [scanStrAux.eq_def]
      dsimp only
      by_cases h1 : c = q
      · rw [if_pos h1]; rfl
      · rw [if_neg h1]
        by_cases h2 : c = 92
        · rw [if_pos h2]
          cases rest with
          | nil => simp
          | cons d rest2 =>
            dsimp only
            have hr := ih rest2 (by simp only [List.length_cons] at h; omega)
            simp [hr]
        · rw [if_neg h2]
          dsimp only
          have hr := ih rest (by simp only [List.length_cons] at h; omega)
          simp [hr]

/-- The string scanner splits its input (length-free form). -/
theorem scanStrAux_append (q : Nat) (l : List Nat) :
    (scanStrAux q l).1 ++ (scanStrAux q l).2 = l :=
  scanStrAux_split q l.length l le_rfl

/-- The variable scanner splits its input. -/
theorem scanVar_append (l : List Nat) :
    (scanVar l).1 ++ (scanVar l).2 = l := by
  cases l with
  | nil => rfl
  | cons c rest =>
    simp only [scanVar]
    by_cases hc : c = 123
    · rw [if_pos hc]
      cases hd : rest.dropWhile (fun b => decide (b ≠ 125)) with
      | nil =>
        dsimp only
        have hsplit := List.takeWhile_append_dropWhile
          (p := fun b => decide (b ≠ 125)) (l := rest)
        rw [hd, List.append_nil] at hsplit
        simp only [List.append_nil]
        rw [hsplit]
      | cons d after =>
        dsimp only
        have hsplit := List.takeWhile_append_dropWhile
          (p := fun b => decide (b ≠ 125)) (l := rest)
        rw [hd] at hsplit
        have hdd : d = 125 := by
          have := dropWhile_head_false _ rest d after hd
          simpa using this
        subst hdd
        simp only [List.cons_append, List.append_assoc, List.nil_append,
          List.singleton_append]
        rw [hsplit]
    · rw [if_neg hc]
      dsimp only
      exact List.takeWhile_append_dropWhile _ _

/-- The operator scanner splits its input and consumes the first byte. -/
theorem scanOper_append (c : Nat) (l : List Nat) :
    (scanOper c l).1 ++ (scanOper c l).2 = c :: l := by
  cases l with
  | nil => rfl
  | cons d rest =>
    simp only [scanOper]
    split_ifs with h
    · rfl
    · rfl

/-- The operator scanner output is never empty. -/
theorem scanOper_ne_nil (c : Nat) (l : List Nat) : (scanOper c l).1 ≠ [] := by
  cases l with
  | nil => simp [scanOper]
  | cons d rest =>
    simp only [scanOper]
    split_ifs with h <;> simp

/-- The flag scanner splits its input. -/
theorem scanFlag_append (l : List Nat) :
    (scanFlag l).1 ++ (scanFlag l).2 = l := by
  cases l with
  | nil => rfl
  | cons d l2 =>
    simp only [scanFlag]
    split_ifs with h
    · dsimp only
      rw [List.cons_append, List.takeWhile_append_dropWhile]
    · dsimp only
      exact List.takeWhile_append_dropWhile _ _

/-- A consumed non-empty prefix leaves a strictly shorter remainder. -/
theorem consume_length {value rest2 : List Nat} {c : Nat} {rest : List Nat}
    (h : value ++ rest2 = c :: rest) (hne : value ≠ []) :
    rest2.length ≤ rest.length := by
  have hl := congrArg List.length h
  simp only [List.length_append, List.length_cons] at hl
  have hv : 0 < value.length := List.length_pos.mpr hne
  omega

/-- Bytes of the remainder come from the input. -/
theorem consume_mem {value rest2 : List Nat} {c : Nat} {rest : List Nat}
    (h : value ++ rest2 = c :: rest) : ∀ b ∈ rest2, b ∈ c :: rest := by
  intro b hb
  rw [← h]
  exact List.mem_append_right _ hb

/-- A word-start byte below 128 is not a word-break byte. -/
theorem wordStart_not_break_all :
    ∀ c < 128, isWordStart c = true → isWordBreak c = false := by decide

/-- A word-start byte below 128 is not a word-break byte (applied form). -/
theorem wordStart_not_break {c : Nat} (hlt : c < 128)
    (h : isWordStart c = true) : isWordBreak c = false :=
  wordStart_not_break_all c hlt h

/-- The main loop of Tokenize with adequate fuel reproduces its ASCII
input as the concatenation of the token texts. -/
theorem tokenizeAux_roundtrip :
    ∀ (fuel : Nat) (isFirst : Bool) (l : List Nat),
      l.length ≤ fuel → (∀ b ∈ l, b < 128) →
      tokenValuesJoin (tokenizeAux fuel isFirst l) = l := by
  intro fuel
  induction fuel with
  | zero =>
    intro isFirst l h hascii
    have : l = [] := List.length_eq_zero.mp (Nat.le_zero.mp h)
    subst this; rfl
  | succ n ih =>
    intro isFirst l h hascii
    match l with
    | [] => rfl
    | c :: rest =>
      have hc128 : c < 128 := hascii c (List.mem_cons_self _ _)
      have harest : ∀ b ∈ rest, b < 128 :=
        fun b hb => hascii b (List.mem_cons_of_mem _ hb)
      have hlen : rest.length ≤ n := by simp only [List.length_cons] at h; omega
      rw [tokenizeAux.eq_def]
      dsimp only
      by_cases h1 : isSpaceB c = true
      · rw [if_pos h1, tokenValuesJoin_cons]
        dsimp only
        rw [encodeRuneB_ascii hc128, ih isFirst rest hlen harest]
        rfl
      · rw [if_neg h1]
        by_cases h2 : c = 35
        · rw [if_pos h2, tokenValuesJoin_cons]
          dsimp only
          have happ := List.takeWhile_append_dropWhile
            (fun b => decide (b ≠ 10)) (c :: rest)
          have hne : (c :: rest).takeWhile (fun b => decide (b ≠ 10)) ≠ [] := by
            rw [List.takeWhile_cons_of_pos (by subst h2; decide)]
            simp
          rw [ih isFirst _ (Nat.le_trans (consume_length happ hne) hlen)
            (fun b hb => hascii b (consume_mem happ b hb))]
          exact happ
        · rw [if_neg h2]
          by_cases h3 : (c = 34 || c = 39 || c = 96) = true
          · rw [if_pos h3, tokenValuesJoin_cons]
            dsimp only
            have happ : (c :: (scanStrAux c rest).1) ++ (scanStrAux c rest).2
                = c :: rest := by
              rw [List.cons_append, scanStrAux_append]
            rw [ih false _ (Nat.le_trans (consume_length happ (by simp)) hlen)
              (fun b hb => hascii b (consume_mem happ b hb))]
            exact happ
          · rw [if_neg h3]
            by_cases h4 : c = 36
            · rw [if_pos h4, tokenValuesJoin_cons]
              dsimp only
              have happ : (c :: (scanVar rest).1) ++ (scanVar rest).2
                  = c :: rest := by
                rw [List.cons_append, scanVar_append]
              rw [ih false _ (Nat.le_trans (consume_length happ (by simp)) hlen)
                (fun b hb => hascii b (consume_mem happ b hb))]
              exact happ
            · rw [if_neg h4]
              by_cases h5 : operChars.contains c = true
              · rw [if_pos h5, tokenValuesJoin_cons]
                dsimp only
                have happ := scanOper_append c rest
                rw [ih _ _
                  (Nat.le_trans (consume_length happ (scanOper_ne_nil c rest)) hlen)
                  (fun b hb => hascii b (consume_mem happ b hb))]
                exact happ
              · rw [if_neg h5]
                by_cases h6 : (c = 45 && flagGuard rest) = true
                · rw [if_pos h6, tokenValuesJoin_cons]
                  dsimp only
                  have happ : (c :: (scanFlag rest).1) ++ (scanFlag rest).2
                      = c :: rest := by
                    rw [List.cons_append, scanFlag_append]
                  rw [ih false _
                    (Nat.le_trans (consume_length happ (by simp)) hlen)
                    (fun b hb => hascii b (consume_mem happ b hb))]
                  exact happ
                · rw [if_neg h6]
                  by_cases h7 : isWordStart c = true
                  · rw [if_pos h7, tokenValuesJoin_cons]
                    dsimp only
                    have happ := List.takeWhile_append_dropWhile
                      (fun b => !isWordBreak b) (c :: rest)
                    have hne : (c :: rest).takeWhile (fun b => !isWordBreak b)
                        ≠ [] := by
                      rw [List.takeWhile_cons_of_pos
                        (by rw [wordStart_not_break hc128 h7]; rfl)]
                      simp
                    rw [ih false _ (Nat.le_trans (consume_length happ hne) hlen)
                      (fun b hb => hascii b (consume_mem happ b hb))]
                    exact happ
                  · rw [if_neg h7, tokenValuesJoin_cons]
                    dsimp only
                    rw [encodeRuneB_ascii hc128, ih isFirst rest hlen harest]
                    rfl

/-- Claim C2 (amended): for every command string all of whose bytes are
ASCII, concatenating the literal texts of the tokens returned by
Tokenize reproduces the input exactly. -/
theorem c2_tokenize_roundtrip_ascii (input : List Nat)
    (hascii : ∀ b ∈ input, b < 128) :
    tokenValuesJoin (Tokenize input) = input :=
  tokenizeAux_roundtrip input.length true input le_rfl hascii

/-- Witness for c2_tokenize_roundtrip_ascii on a concrete shell
command. -/
theorem c2_tokenize_roundtrip_ascii_witness :
    tokenValuesJoin (Tokenize (asciiBytes "ls -la | grep foo"))
      = asciiBytes "ls -la | grep foo" :=
  c2_tokenize_roundtrip_ascii (asciiBytes "ls -la | grep foo") (by decide)

end Termshot


